import Mathlib

/-!
Desired-LRP store of the BBS (`db/etcd/desired_lrp_db.go`).

A shallow embedding of the desired-LRP operations of the etcd-backed store:
`DesiredLRPs`, `rawDesiredLRPByProcessGuid`, `startInstanceRange`,
`stopInstanceRange`, `DesireLRP`, `UpdateDesiredLRP` and `RemoveDesiredLRP`.

The operations are state passing functions over a `World`: the key-value
subtree holding the desired LRPs, the stored actual LRPs, and a chronological
record of the ranges opened and of the requests sent to the collaborators
(actual-LRP creation, auctioneer, retirement).  Go `int32` values are integers
with explicit wrap-around (`wrapInt32`), a run-time panic is the result `none`.
Of the log only the entries that open a start or a stop range are kept.
-/

namespace BBS

/-! ## Data model -/

/-- Modelled from the spec: the domain error taxonomy of §7 (the types of
`models.Error`). -/
inductive ErrorType where
  | ResourceNotFound
  | ResourceExists
  | ResourceConflict
  | InvalidRequest
  | InvalidStateTransition
  | DesiredLRPCannotBeUpdated
  | InvalidRecord
  | UnknownError
deriving DecidableEq, Repr

/-- Modelled from the spec: `models.ModificationTag`, the pair of an epoch
(a UUID assigned on create) and an index (an unsigned 64-bit counter). -/
structure ModificationTag where
  Epoch : String
  Index : Nat
deriving DecidableEq, Repr

/-- Modelled from the spec: `models.DesiredLRP`. `Instances` is an `int32`;
`Definition`, `Routes` and the annotation are payloads the store does not
interpret. -/
structure DesiredLRP where
  ProcessGuid : String
  Domain : String
  Instances : Int
  Definition : String
  Routes : String
  Annotation : String
  ModificationTag : ModificationTag
deriving DecidableEq, Repr

/-- Modelled from the spec: `models.DesiredLRPUpdate`; a field that is absent
(a nil pointer) leaves the record's field as it is. -/
structure DesiredLRPUpdate where
  Instances : Option Int
  Routes : Option String
  Annotation : Option String
deriving DecidableEq, Repr

/-- Modelled from the spec: `models.DesiredLRPFilter`, a filter on `Domain`. -/
structure DesiredLRPFilter where
  Domain : String
deriving DecidableEq, Repr

/-- Modelled from the spec: `models.ActualLRPKey`. -/
structure ActualLRPKey where
  ProcessGuid : String
  Index : Int
  Domain : String
deriving DecidableEq, Repr

/-- Modelled from the spec: `models.NewActualLRPKey`, which forms the key
`(processGuid, index, domain)`. -/
def NewActualLRPKey (processGuid : String) (index : Int) (domain : String) : ActualLRPKey :=
  { ProcessGuid := processGuid, Index := index, Domain := domain }

/-- Modelled from the spec: the states of an actual LRP. -/
inductive ActualLRPState where
  | Unclaimed
  | Claimed
  | Running
  | Crashed
deriving DecidableEq, Repr

/-- Modelled from the spec: `models.ActualLRP`, its key, the cell it is
assigned to (empty until claimed) and its state. -/
structure ActualLRP where
  ActualLRPKey : ActualLRPKey
  CellId : String
  State : ActualLRPState
deriving DecidableEq, Repr

/-- Modelled from the spec: the request sent to the auctioneer collaborator,
`LRPStartRequest = { desiredLRP, indices }`. -/
structure LRPStartRequest where
  DesiredLRP : DesiredLRP
  Indices : List Int
deriving DecidableEq, Repr

/-- Modelled from the spec: `auctioneer.NewLRPStartRequestFromModel`, the request
for a desired LRP and a list of indices. -/
def NewLRPStartRequestFromModel (d : DesiredLRP) (indices : List Int) : LRPStartRequest :=
  { DesiredLRP := d, Indices := indices }

/-! ## Serialization and the key-value store -/

/-- Modelled from the spec: the stored bytes of a record (codec of §4.1, whose
`serializeModel` and `deserializeModel` are not part of this file). A value is
either the encoding of a record, which decodes to that record, or bytes that do
not parse. -/
inductive Blob where
  | encoded (lrp : DesiredLRP)
  | unparsable (raw : String)
deriving DecidableEq, Repr

/-- Modelled from the spec: a leaf of the KV, with its key, its stored bytes and
its version token (`modifiedIndex`). -/
structure Node where
  Key : String
  Value : Blob
  ModifiedIndex : Nat
deriving DecidableEq, Repr

/-- Modelled from the spec: a directory of the KV fetched recursively, with its
key and its children. -/
structure DirNode where
  Key : String
  Nodes : List Node
deriving DecidableEq, Repr

/-- Modelled from the spec: the failures of the KV operations of §4.3, as the etcd
client reports them. -/
inductive EtcdError where
  | KeyNotFound
  | NodeExist
  | TestFailed
  | Other
deriving DecidableEq, Repr

/-- What an operation does besides writing the desired-LRP records, in the order
in which it happens: the opening of a start or stop range (the log entry
`starting` of the session `start-instance-range` or `stop-instance-range`, with
its bounds) and the requests sent to the collaborators. -/
inductive Event where
  | startRange (lower upper : Int)
  | stopRange (lower upper : Int)
  | createUnclaimed (keys : List (Option ActualLRPKey))
  | requestAuctions (requests : List LRPStartRequest)
  | retire (keys : List ActualLRPKey)
deriving DecidableEq, Repr

/-- The state the operations act on.

* `desired`: the children of the desired-LRP prefix, `none` when the prefix is
  absent from the store;
* `etcdIndex`: the store's modification counter, the source of version tokens;
* `actuals`: the stored actual LRPs;
* `entropy`: the results of the coming UUID generations (`none`: a failure);
* `auctioneerErr`: the error the auctioneer answers with, if any;
* `actualLookupErr`: the error the lookup of actual LRPs fails with, if any;
* `events`: the ranges opened and the requests sent to the collaborators so
  far, oldest first. -/
structure World where
  desired : Option (List Node)
  etcdIndex : Nat
  actuals : List ActualLRP
  entropy : List (Option String)
  auctioneerErr : Option ErrorType
  actualLookupErr : Option ErrorType
  events : List Event
deriving DecidableEq, Repr

/-- Modelled from the spec: persisted key layout, `/v1/desired`. -/
def DesiredLRPSchemaRoot : String := "/v1/desired"

/-- Modelled from the spec: persisted key layout, `/v1/desired/<ProcessGuid>`. -/
def DesiredLRPSchemaPathByProcessGuid (processGuid : String) : String :=
  DesiredLRPSchemaRoot ++ "/" ++ processGuid

/-- Modelled from the spec: `DesiredLRPSchemaPath`, the key of a record. -/
def DesiredLRPSchemaPath (lrp : DesiredLRP) : String :=
  DesiredLRPSchemaPathByProcessGuid lrp.ProcessGuid

/-- Modelled from the spec: `serializeModel`, "encode is total". -/
def serializeModel (lrp : DesiredLRP) : Except ErrorType Blob :=
  .ok (.encoded lrp)

/-- Modelled from the spec: `deserializeModel`, which fails with `InvalidRecord`
when the bytes do not parse and returns the encoded record otherwise. -/
def deserializeModel (node : Node) : Except ErrorType DesiredLRP :=
  match node.Value with
  | .encoded lrp => .ok lrp
  | .unparsable _ => .error .InvalidRecord

/-- The children of the desired-LRP prefix (none when it is absent). -/
def World.nodes (w : World) : List Node :=
  w.desired.getD []

/-- Modelled from the spec: `List(prefix)` of the KV gateway; an absent prefix is
`ResourceNotFound`. -/
def fetchRecursiveRaw (w : World) (key : String) : Except ErrorType DirNode :=
  if key = DesiredLRPSchemaRoot then
    match w.desired with
    | none => .error .ResourceNotFound
    | some ns => .ok { Key := key, Nodes := ns }
  else .error .ResourceNotFound

/-- Modelled from the spec: `Get(key)` of the KV gateway, the value with its
version token, or `ResourceNotFound`. -/
def fetchRaw (w : World) (key : String) : Except ErrorType Node :=
  match w.nodes.find? (fun n => n.Key = key) with
  | some n => .ok n
  | none => .error .ResourceNotFound

/-- Modelled from the spec: `models.ConvertError`; a nil error stays nil, any
other error is seen as an error of the domain taxonomy. -/
def ConvertError (err : Option ErrorType) : Option ErrorType := err

/-! ## `DesiredLRPs` -/

/-- Modelled from the spec: cap of the deserialization pool
(`maxDesiredLRPGetterWorkPoolSize`, "implementation-defined, ~50"). -/
def maxDesiredLRPGetterWorkPoolSize : Int := 50

/-- The state shared by the deserialization works: the result slice (guarded by
`lrpsLock`) and the atomic value `workErr`. -/
structure FanOut where
  desiredLRPs : List DesiredLRP
  workErr : Option String
deriving DecidableEq, Repr

/-- One unit of work of `DesiredLRPs` (the closure built for `node`): its effect
on the shared state. -/
def desiredLRPsWork (filter : DesiredLRPFilter) (node : Node) (st : FanOut) : FanOut :=
  match deserializeModel node with
  | .error _ =>
    { st with workErr := some ("cannot parse lrp JSON for key " ++ node.Key) }
  | .ok lrp =>
    if filter.Domain = "" ∨ lrp.Domain = filter.Domain then
      { st with desiredLRPs := st.desiredLRPs ++ [lrp] }
    else st

/-- Modelled from the spec: `workpool.NewThrottler` (bounded worker pool of §4.2,
"`maxWorkers ≥ 1` required"); it fails when `maxWorkers < 1` and otherwise
holds the works to run. -/
def NewThrottler {α : Type} (maxWorkers : Int) (works : List α) : Except ErrorType (List α) :=
  if maxWorkers < 1 then .error .UnknownError else .ok works

/-- Modelled from the spec: `Throttler.Work` (§4.2); every work runs exactly once
and the call returns when all have completed. Each work changes the shared state in one atomic step (an
append under the lock, or a store to the atomic value), so a run of the pool
is the run of the works one after the other in some order: `schedule` lists
the positions of the works in the order in which their steps take effect. -/
def Throttler.Work {σ : Type} (works : List (σ → σ)) (schedule : List Nat) (st : σ) : σ :=
  (schedule.filterMap (fun i => works[i]?)).foldl (fun s work => work s) st

/-- A schedule of `n` works: every position `0 .. n-1` exactly once. -/
def IsSchedule (schedule : List Nat) (n : Nat) : Prop :=
  schedule.Perm (List.range n)

/-- `ETCDDB.DesiredLRPs`: the returned slice and the returned error. -/
def DesiredLRPs (w : World) (schedule : List Nat) (filter : DesiredLRPFilter) :
    List DesiredLRP × Option ErrorType :=
  match fetchRecursiveRaw w DesiredLRPSchemaRoot with
  | .error err =>
    match ConvertError (some err) with
    | some bbsErr =>
      if bbsErr = .ResourceNotFound then ([], none) else ([], some err)
    | none => ([], none)
  | .ok root =>
    if root.Nodes.length = 0 then ([], none)
    else
      let works := root.Nodes.map (fun node => desiredLRPsWork filter node)
      match NewThrottler maxDesiredLRPGetterWorkPoolSize works with
      | .error _ => ([], some .UnknownError)
      | .ok throttler =>
        let st := Throttler.Work throttler schedule { desiredLRPs := [], workErr := none }
        match st.workErr with
        | some _ => ([], some .UnknownError)
        | none => (st.desiredLRPs, none)

/-! ## Machine integers and counting loops -/

/-- The value an `int32` operation yields for the mathematical result `x`
(two's complement wrap-around). -/
def wrapInt32 (x : Int) : Int :=
  (x + 2147483648) % 4294967296 - 2147483648

/-- The values of the type `int32`. -/
def IsInt32 (x : Int) : Prop :=
  -2147483648 ≤ x ∧ x ≤ 2147483647

instance (x : Int) : Decidable (IsInt32 x) := by
  unfold IsInt32; infer_instance

/-- The values taken by the counter of `for i := lower; i < upper; i++`, in the
order of the iterations: `lower, lower + 1, ..., upper - 1` (none when
`upper ≤ lower`). The counter never exceeds `upper`, so it does not wrap. -/
def intRange (lower upper : Int) : List Int :=
  (List.range (upper - lower).toNat).map (fun (j : Nat) => lower + (j : Int))

/-! ## Collaborators -/

/-- Modelled from the spec: `Create(key, value)` of the KV, which writes only if
the key is absent. -/
def client.Create (w : World) (key : String) (value : Blob) : Except EtcdError Node × World :=
  match w.nodes.find? (fun n => n.Key = key) with
  | some _ => (.error .NodeExist, w)
  | none =>
    let node : Node := { Key := key, Value := value, ModifiedIndex := w.etcdIndex + 1 }
    (.ok node, { w with desired := some (w.nodes ++ [node]), etcdIndex := w.etcdIndex + 1 })

/-- Modelled from the spec: `CompareAndSwap(key, value, expectedVersion)` of the
KV, which writes only if the current version equals `prevIndex`. -/
def client.CompareAndSwap (w : World) (key : String) (value : Blob) (prevIndex : Nat) :
    Except EtcdError Node × World :=
  match w.nodes.find? (fun n => n.Key = key) with
  | none => (.error .KeyNotFound, w)
  | some n =>
    if n.ModifiedIndex = prevIndex then
      let node : Node := { Key := key, Value := value, ModifiedIndex := w.etcdIndex + 1 }
      (.ok node,
        { w with
          desired := some (w.nodes.map (fun m => if m.Key = key then node else m)),
          etcdIndex := w.etcdIndex + 1 })
    else (.error .TestFailed, w)

/-- Modelled from the spec: `Delete(key, recursive?)` of the KV, which removes the
key. -/
def client.Delete (w : World) (key : String) (_recursive : Bool) : Except EtcdError Node × World :=
  match w.nodes.find? (fun n => n.Key = key) with
  | none => (.error .KeyNotFound, w)
  | some n =>
    (.ok n,
      { w with
        desired := some (w.nodes.filter (fun m => ¬ m.Key = key)),
        etcdIndex := w.etcdIndex + 1 })

/-- Modelled from the spec: `ErrorFromEtcdError`, the mapping of the KV errors
into the domain taxonomy. -/
def ErrorFromEtcdError (err : EtcdError) : ErrorType :=
  match err with
  | .KeyNotFound => .ResourceNotFound
  | .NodeExist => .ResourceExists
  | .TestFailed => .ResourceConflict
  | .Other => .UnknownError

/-- Modelled from the spec: `uuid.NewV4`, the generation of an epoch; the next
result of the entropy source, a failure when the source yields none. -/
def uuid.NewV4 (w : World) : Option String × World :=
  match w.entropy with
  | [] => (none, w)
  | r :: rest => (r, { w with entropy := rest })

/-- Modelled from the spec: `ModificationTag.Increment`, `Index += 1` on an
unsigned 64-bit counter. -/
def ModificationTag.Increment (t : ModificationTag) : ModificationTag :=
  { t with Index := (t.Index + 1) % 18446744073709551616 }

/-- Modelled from the spec: `DesiredLRP.ApplyUpdate`, which may change
`Instances`, the routes and the annotation, and nothing else. -/
def DesiredLRP.ApplyUpdate (desired : DesiredLRP) (update : DesiredLRPUpdate) : DesiredLRP :=
  let desired :=
    match update.Instances with
    | some n => { desired with Instances := n }
    | none => desired
  let desired :=
    match update.Routes with
    | some r => { desired with Routes := r }
    | none => desired
  match update.Annotation with
  | some a => { desired with Annotation := a }
  | none => desired

/-- Whether an actual LRP is stored for the process and index of `key`. -/
def World.hasActual (w : World) (key : ActualLRPKey) : Bool :=
  w.actuals.any
    (fun a => a.ActualLRPKey.ProcessGuid = key.ProcessGuid ∧ a.ActualLRPKey.Index = key.Index)

/-- Modelled from the spec: the record created for a key, unclaimed and assigned
to no cell. -/
def unclaimedActual (key : ActualLRPKey) : ActualLRP :=
  { ActualLRPKey := key, CellId := "", State := .Unclaimed }

/-- Modelled from the spec: the creation of one unclaimed actual LRP; a key that
already has an actual is skipped, otherwise the record is stored and its index
reported. -/
def createUnclaimedActualLRP (acc : List Int × World) (key : ActualLRPKey) : List Int × World :=
  if acc.2.hasActual key then acc
  else
    (acc.1 ++ [key.Index], { acc.2 with actuals := acc.2.actuals ++ [unclaimedActual key] })

/-- The keys a slice of pointers points to; `none` when one of them is nil. -/
def derefKeys : List (Option ActualLRPKey) → Option (List ActualLRPKey)
  | [] => some []
  | none :: _ => none
  | some key :: rest => (derefKeys rest).map (fun ks => key :: ks)

/-- Modelled from the spec: `createUnclaimedActualLRPs` ("create Unclaimed actual
records, best-effort per key; already-existing keys are skipped, not errors"),
which returns the indices it created. The keys are taken in the order of the
slice; a nil key is a nil dereference (`none`). -/
def createUnclaimedActualLRPs (w : World) (keys : List (Option ActualLRPKey)) :
    Option (List Int × World) :=
  match derefKeys keys with
  | none => none
  | some ks =>
    some (ks.foldl createUnclaimedActualLRP
      ([], { w with events := w.events ++ [.createUnclaimed keys] }))

/-- Modelled from the spec: `RequestLRPAuctions` of the auctioneer collaborator;
the request is recorded and the auctioneer's answer returned. -/
def auctioneerClient.RequestLRPAuctions (w : World) (requests : List LRPStartRequest) :
    Option ErrorType × World :=
  (w.auctioneerErr, { w with events := w.events ++ [.requestAuctions requests] })

/-- Modelled from the spec: `instanceActualLRPsByProcessGuid`, "look up all
actual LRPs for the processGuid": the map from an index to the actual LRP
stored for the process at that index, or the error of the lookup. -/
def instanceActualLRPsByProcessGuid (w : World) (processGuid : String) :
    Except ErrorType (Int → Option ActualLRP) :=
  match w.actualLookupErr with
  | some err => .error err
  | none =>
    .ok (fun i =>
      w.actuals.find?
        (fun a => a.ActualLRPKey.ProcessGuid = processGuid ∧ a.ActualLRPKey.Index = i))

/-- Modelled from the spec: `retireActualLRPs`, "retire (signal cell + delete
record) through the cell collaborator": the request is recorded and the records
of the keys are removed. -/
def retireActualLRPs (w : World) (keys : List ActualLRPKey) : World :=
  { w with
    actuals := w.actuals.filter (fun a => ¬ a.ActualLRPKey ∈ keys),
    events := w.events ++ [.retire keys] }

/-! ## The desired-LRP operations -/

/-- `ETCDDB.rawDesiredLRPByProcessGuid`: the record and its version token. -/
def rawDesiredLRPByProcessGuid (w : World) (processGuid : String) :
    Except ErrorType (DesiredLRP × Nat) :=
  match fetchRaw w (DesiredLRPSchemaPathByProcessGuid processGuid) with
  | .error err => .error err
  | .ok node =>
    match deserializeModel node with
    | .error deserializeErr => .error deserializeErr
    | .ok lrp => .ok (lrp, node.ModifiedIndex)

/-- `ETCDDB.DesiredLRPByProcessGuid`. -/
def DesiredLRPByProcessGuid (w : World) (processGuid : String) : Except ErrorType DesiredLRP :=
  match rawDesiredLRPByProcessGuid w processGuid with
  | .error err => .error err
  | .ok (lrp, _) => .ok lrp

/-- The key slice of `startInstanceRange`: `make([]*ActualLRPKey, upper-lower)`
followed by the loop that fills it. `none` is a panic: a negative length, or
an index out of range. -/
def startInstanceRange.keys (lower upper : Int) (desiredLRP : DesiredLRP) :
    Option (List (Option ActualLRPKey)) :=
  let len := wrapInt32 (upper - lower)
  if len < 0 then none
  else
    let keys : List (Option ActualLRPKey) := List.replicate len.toNat none
    let filled :=
      (intRange lower upper).foldl
        (fun (acc : Option (List (Option ActualLRPKey) × Nat)) actualIndex =>
          match acc with
          | none => none
          | some (keys, i) =>
            if i < keys.length then
              some (keys.set i
                (some (NewActualLRPKey desiredLRP.ProcessGuid actualIndex desiredLRP.Domain)), i + 1)
            else none)
        (some (keys, 0))
    filled.map Prod.fst

/-- `ETCDDB.startInstanceRange`; `none` when it panics. -/
def startInstanceRange (w : World) (lower upper : Int) (desiredLRP : DesiredLRP) : Option World :=
  let w := { w with events := w.events ++ [.startRange lower upper] }
  match startInstanceRange.keys lower upper desiredLRP with
  | none => none
  | some keys =>
    match createUnclaimedActualLRPs w keys with
    | none => none
    | some (createdIndices, w1) =>
      let start := NewLRPStartRequestFromModel desiredLRP createdIndices
      match auctioneerClient.RequestLRPAuctions w1 [start] with
      | (some _, w2) => some w2
      | (none, w2) => some w2

/-- The keys collected by the loop of `stopInstanceRange`. -/
def stopInstanceRange.actualKeys (actualsMap : Int → Option ActualLRP) (lower upper : Int) :
    List ActualLRPKey :=
  (intRange lower upper).foldl
    (fun actualKeys i =>
      match actualsMap i with
      | some actual => actualKeys ++ [actual.ActualLRPKey]
      | none => actualKeys)
    []

/-- `ETCDDB.stopInstanceRange`. -/
def stopInstanceRange (w : World) (lower upper : Int) (desiredLRP : DesiredLRP) : World :=
  let w := { w with events := w.events ++ [.stopRange lower upper] }
  match instanceActualLRPsByProcessGuid w desiredLRP.ProcessGuid with
  | .error _ => w
  | .ok actualsMap =>
    retireActualLRPs w (stopInstanceRange.actualKeys actualsMap lower upper)

/-- `ETCDDB.DesireLRP`: the returned error and the state it leaves; `none` when
it panics. -/
def DesireLRP (w : World) (desiredLRP : DesiredLRP) : Option (Option ErrorType × World) :=
  match uuid.NewV4 w with
  | (none, w1) => some (some .UnknownError, w1)
  | (some guid, w1) =>
    let desiredLRP := { desiredLRP with ModificationTag := { Epoch := guid, Index := 0 } }
    match serializeModel desiredLRP with
    | .error err => some (some err, w1)
    | .ok value =>
      match client.Create w1 (DesiredLRPSchemaPath desiredLRP) value with
      | (.error err, w2) => some (some (ErrorFromEtcdError err), w2)
      | (.ok _, w2) =>
        match startInstanceRange w2 0 desiredLRP.Instances desiredLRP with
        | none => none
        | some w3 => some (none, w3)

/-- `ETCDDB.UpdateDesiredLRP`: the returned error and the state it leaves; `none`
when it panics. The requests of different clients are not serialized: `concurrent`
is the effect of the other clients that takes place between the `Get` and the
`CompareAndSwap` of this call (the identity when there is none). -/
def UpdateDesiredLRP (w : World) (concurrent : World → World) (processGuid : String)
    (update : DesiredLRPUpdate) : Option (Option ErrorType × World) :=
  match rawDesiredLRPByProcessGuid w processGuid with
  | .error err => some (some err, w)
  | .ok (desiredLRP, index) =>
    let existingInstances := desiredLRP.Instances
    let desiredLRP := desiredLRP.ApplyUpdate update
    let desiredLRP := { desiredLRP with ModificationTag := desiredLRP.ModificationTag.Increment }
    match serializeModel desiredLRP with
    | .error err => some (some err, w)
    | .ok value =>
      match client.CompareAndSwap (concurrent w) (DesiredLRPSchemaPath desiredLRP) value index with
      | (.error _, w1) => some (some .DesiredLRPCannotBeUpdated, w1)
      | (.ok _, w1) =>
        let diff := wrapInt32 (desiredLRP.Instances - existingInstances)
        if diff > 0 then
          match startInstanceRange w1 existingInstances desiredLRP.Instances desiredLRP with
          | none => none
          | some w2 => some (none, w2)
        else if diff < 0 then
          some (none, stopInstanceRange w1 desiredLRP.Instances existingInstances desiredLRP)
        else
          some (none, w1)

/-- `ETCDDB.RemoveDesiredLRP`: the returned error and the state it leaves. -/
def RemoveDesiredLRP (w : World) (processGuid : String) : Option ErrorType × World :=
  match DesiredLRPByProcessGuid w processGuid with
  | .error err => (some err, w)
  | .ok desiredLRP =>
    match client.Delete w (DesiredLRPSchemaPathByProcessGuid processGuid) true with
    | (.error _, w1) => (some .UnknownError, w1)
    | (.ok _, w1) => (none, stopInstanceRange w1 0 desiredLRP.Instances desiredLRP)

/-! ## Specification-side notions -/

/-- The records a collection of nodes decodes to, in the order of the nodes. -/
def decodedRecords (ns : List Node) : List DesiredLRP :=
  ns.filterMap (fun n =>
    match deserializeModel n with
    | .ok lrp => some lrp
    | .error _ => none)

/-- The keys of the indices `lower .. upper - 1` of a desired LRP, in ascending
order of the index. -/
def rangeKeys (lower upper : Int) (desiredLRP : DesiredLRP) : List ActualLRPKey :=
  (intRange lower upper).map
    (fun i => NewActualLRPKey desiredLRP.ProcessGuid i desiredLRP.Domain)

/-- The keys of the range for which no actual LRP is stored yet. -/
def missingKeys (w : World) (lower upper : Int) (desiredLRP : DesiredLRP) : List ActualLRPKey :=
  (rangeKeys lower upper desiredLRP).filter (fun key => !w.hasActual key)

/-- The state a start range leaves when the key slice can be built: the missing
actual LRPs are stored as unclaimed; the opening of the range, the creation
request and one auction request are recorded. -/
def afterStartRange (w : World) (lower upper : Int) (desiredLRP : DesiredLRP) : World :=
  { w with
    actuals := w.actuals ++ (missingKeys w lower upper desiredLRP).map unclaimedActual,
    events := w.events ++
      [ .startRange lower upper,
        .createUnclaimed ((rangeKeys lower upper desiredLRP).map some),
        .requestAuctions
          [ { DesiredLRP := desiredLRP,
              Indices := (missingKeys w lower upper desiredLRP).map (fun key => key.Index) } ] ] }

/-- The keys of the actual LRPs stored for the process at the indices
`lower .. upper - 1`, in ascending order of the index. -/
def storedKeys (w : World) (lower upper : Int) (processGuid : String) : List ActualLRPKey :=
  (intRange lower upper).filterMap (fun i =>
    (w.actuals.find?
      (fun a => a.ActualLRPKey.ProcessGuid = processGuid ∧ a.ActualLRPKey.Index = i)).map
      (fun a => a.ActualLRPKey))

/-- The state a stop range leaves: the opening of the range is recorded; unless
the lookup of the actual LRPs fails, the stored actual LRPs of the range are
retired in one request. -/
def afterStopRange (w : World) (lower upper : Int) (desiredLRP : DesiredLRP) : World :=
  match w.actualLookupErr with
  | some _ => { w with events := w.events ++ [.stopRange lower upper] }
  | none =>
    { w with
      actuals := w.actuals.filter
        (fun a => ¬ a.ActualLRPKey ∈ storedKeys w lower upper desiredLRP.ProcessGuid),
      events := w.events ++
        [ .stopRange lower upper,
          .retire (storedKeys w lower upper desiredLRP.ProcessGuid) ] }

/-- The record an update writes: the stored record with the update applied and
its modification tag incremented. -/
def updatedLRP (lrp : DesiredLRP) (update : DesiredLRPUpdate) : DesiredLRP :=
  { lrp.ApplyUpdate update with
    ModificationTag := (lrp.ApplyUpdate update).ModificationTag.Increment }

/-- A run of updates of one process, each with the effect the concurrent clients
have between its `Get` and its `CompareAndSwap`; `none` unless every update
returns nil. -/
def runUpdates (processGuid : String) :
    List (DesiredLRPUpdate × (World → World)) → World → Option World
  | [], w => some w
  | (update, concurrent) :: rest, w =>
    match UpdateDesiredLRP w concurrent processGuid update with
    | some (none, w1) => runUpdates processGuid rest w1
    | _ => none

/-- The state right after the record of a new process has been created: one
epoch is consumed and the record is appended under its key. -/
def afterCreate (w : World) (d : DesiredLRP) (epoch : String) (rest : List (Option String)) :
    World :=
  { w with
    desired := some (w.nodes ++
      [ { Key := DesiredLRPSchemaPathByProcessGuid d.ProcessGuid,
          Value := .encoded { d with ModificationTag := { Epoch := epoch, Index := 0 } },
          ModifiedIndex := w.etcdIndex + 1 } ]),
    etcdIndex := w.etcdIndex + 1,
    entropy := rest }

/-- The state an update leaves after its write, by the sign of the change of
`Instances`. -/
def afterPlacement (w1 : World) (old new : Int) (lrp : DesiredLRP) : World :=
  if old < new then afterStartRange w1 old new lrp
  else if new < old then afterStopRange w1 new old lrp
  else w1

/-- No two stored actual LRPs share their process and index (the keys of the
store are `/v1/actual/<ProcessGuid>/<Index>`). -/
def UniqueActuals (w : World) : Prop :=
  w.actuals.Pairwise
    (fun a b => ¬ (a.ActualLRPKey.ProcessGuid = b.ActualLRPKey.ProcessGuid ∧
      a.ActualLRPKey.Index = b.ActualLRPKey.Index))

instance (w : World) : Decidable (UniqueActuals w) := by
  unfold UniqueActuals; infer_instance

/-! ## Concrete states used to exercise the theorems -/

/-- A desired LRP of the process `guid` in the domain `domain`. -/
def sampleLRP (guid domain : String) (instances : Int) : DesiredLRP :=
  { ProcessGuid := guid, Domain := domain, Instances := instances, Definition := "def",
    Routes := "", Annotation := "", ModificationTag := { Epoch := "e0", Index := 0 } }

/-- A store without any record, whose entropy source yields the epoch `e1`. -/
def emptyWorld : World :=
  { desired := none, etcdIndex := 0, actuals := [], entropy := [some "e1"],
    auctioneerErr := none, actualLookupErr := none, events := [] }

/-- Two stored records, of the domains `a` and `b`. -/
def twoNodes : List Node :=
  [ { Key := "/v1/desired/p", Value := .encoded (sampleLRP "p" "a" 2), ModifiedIndex := 1 },
    { Key := "/v1/desired/q", Value := .encoded (sampleLRP "q" "b" 1), ModifiedIndex := 2 } ]

/-- A store holding the two records of `twoNodes`. -/
def twoWorld : World :=
  { emptyWorld with desired := some twoNodes, etcdIndex := 2 }

/-- A store in which the record of the domain `b` does not parse. -/
def brokenNodes : List Node :=
  [ { Key := "/v1/desired/p", Value := .encoded (sampleLRP "p" "a" 2), ModifiedIndex := 1 },
    { Key := "/v1/desired/q", Value := .unparsable "\x7bbroken", ModifiedIndex := 2 } ]

/-- An update that sets `Instances` and leaves the other fields alone. -/
def scaleTo (n : Int) : DesiredLRPUpdate :=
  { Instances := some n, Routes := none, Annotation := none }

/-- The state of `twoWorld` right after the record of `p` is rewritten with four
instances. -/
def twoWorldScaled : World :=
  (client.CompareAndSwap twoWorld "/v1/desired/p"
    (.encoded (updatedLRP (sampleLRP "p" "a" 2) (scaleTo 4))) 1).2

/-- The state an operation leaves (the initial empty store when it panics). -/
def worldAfter (r : Option (Option ErrorType × World)) : World :=
  match r with
  | some (_, w) => w
  | none => emptyWorld

/-- The empty store after `DesireLRP` of the process `p` with two instances. -/
def createdWorld : World :=
  worldAfter (DesireLRP emptyWorld (sampleLRP "p" "d" 2))

/-- The store of `createdWorld` after scaling `p` to four and then to one
instance. -/
def rescaledWorld : World :=
  (runUpdates "p" [(scaleTo 4, id), (scaleTo 1, id)] createdWorld).getD emptyWorld

/-- A concurrent client that rewrites the record of `p` in `twoWorld`. -/
def concurrentWriter (w : World) : World :=
  (client.CompareAndSwap w "/v1/desired/p" (.encoded (sampleLRP "p" "a" 7)) 1).2

/-- A store in which the process `p` has the actual LRPs 0, 1, 2 and 3. -/
def fourActuals : World :=
  { emptyWorld with
    actuals :=
      [ unclaimedActual { ProcessGuid := "p", Index := 0, Domain := "d" },
        unclaimedActual { ProcessGuid := "p", Index := 1, Domain := "d" },
        unclaimedActual { ProcessGuid := "p", Index := 2, Domain := "d" },
        unclaimedActual { ProcessGuid := "p", Index := 3, Domain := "d" } ] }

/-- A store holding the record of `p` with four instances and its four actual
LRPs. -/
def fourWorld : World :=
  { fourActuals with
    desired := some
      [ { Key := "/v1/desired/p", Value := .encoded (sampleLRP "p" "d" 4), ModifiedIndex := 1 } ],
    etcdIndex := 1 }

/-- An empty store whose auctioneer answers every request with an error and whose
lookup of actual LRPs fails. -/
def failingWorld : World :=
  { emptyWorld with auctioneerErr := some .UnknownError, actualLookupErr := some .UnknownError }

/-- The state of `twoWorld` right after the record of `p` is rewritten with its two
instances unchanged. -/
def twoWorldRewritten : World :=
  (client.CompareAndSwap twoWorld "/v1/desired/p"
    (.encoded (updatedLRP (sampleLRP "p" "a" 2) (scaleTo 2))) 1).2

/-- The store of `twoWorld` with a failing auctioneer and a failing lookup of
actual LRPs. -/
def failingTwoWorld : World :=
  { twoWorld with auctioneerErr := some .UnknownError, actualLookupErr := some .UnknownError }

/-- The state of `failingTwoWorld` right after the record of `p` is rewritten with
one instance. -/
def failingTwoWorldScaled : World :=
  (client.CompareAndSwap failingTwoWorld "/v1/desired/p"
    (.encoded (updatedLRP (sampleLRP "p" "a" 2) (scaleTo 1))) 1).2

/-! ## Cell presences (`models/cell_presence.go`) -/

/-- A Go `error` value met by the validations: an `ErrInvalidField` naming a field,
or a `ValidationError` (of the representation `VE`) used as an error. -/
inductive GoError (VE : Type) where
  | ErrInvalidField (field : String)
  | ValidationError (ve : VE)
deriving DecidableEq, Repr

/-- The type `ValidationError` is declared outside `cell_presence.go`: its
representation `VE`, its zero value (`var validationError ValidationError`) and
its methods `Append` and `Empty` are parameters of the validations. -/
structure ValidationErrorOps (VE : Type) where
  zero : VE
  Append : VE → GoError VE → VE
  Empty : VE → Bool

/-- What the validations rely on: the zero value is empty, and appending an
`ErrInvalidField` or a non-empty `ValidationError` yields a non-empty value. -/
structure ValidationErrorOps.Lawful {VE : Type} (ops : ValidationErrorOps VE) : Prop where
  empty_zero : ops.Empty ops.zero = true
  append_field : ∀ ve field, ops.Empty (ops.Append ve (.ErrInvalidField field)) = false
  append_nested : ∀ ve inner, ops.Empty inner = false →
    ops.Empty (ops.Append ve (.ValidationError inner)) = false

/-- `CellCapacity`; its fields are `int32` (see `NewCellCapacity`). -/
structure CellCapacity where
  MemoryMb : Int
  DiskMb : Int
  Containers : Int
deriving DecidableEq, Repr

/-- `NewCellCapacity`. -/
def NewCellCapacity (memoryMB diskMB containers : Int) : CellCapacity :=
  { MemoryMb := memoryMB, DiskMb := diskMB, Containers := containers }

/-- `CellCapacity.Validate`: `none` is the nil error. -/
def CellCapacity.Validate {VE : Type} (ops : ValidationErrorOps VE) (cap : CellCapacity) :
    Option (GoError VE) :=
  let validationError := ops.zero
  let validationError :=
    if cap.MemoryMb ≤ 0 then ops.Append validationError (.ErrInvalidField "memory_mb")
    else validationError
  let validationError :=
    if cap.DiskMb < 0 then ops.Append validationError (.ErrInvalidField "disk_mb")
    else validationError
  let validationError :=
    if cap.Containers ≤ 0 then ops.Append validationError (.ErrInvalidField "containers")
    else validationError
  if ¬ ops.Empty validationError = true then some (.ValidationError validationError)
  else none

/-- `CellPresence`; `Capacity` is a pointer (`none` when nil), the root-FS providers
are a map from a provider to its parameters. -/
structure CellPresence where
  CellId : String
  RepAddress : String
  Zone : String
  Capacity : Option CellCapacity
  RootfsProviders : List (String × List String)
deriving DecidableEq, Repr

/-- `CellPresence.Validate`: the outer `none` is a panic (the call
`c.Capacity.Validate()` dereferences `c.Capacity`), the inner `none` the nil
error. -/
def CellPresence.Validate {VE : Type} (ops : ValidationErrorOps VE) (c : CellPresence) :
    Option (Option (GoError VE)) :=
  let validationError := ops.zero
  let validationError :=
    if c.CellId = "" then ops.Append validationError (.ErrInvalidField "cell_id")
    else validationError
  let validationError :=
    if c.RepAddress = "" then ops.Append validationError (.ErrInvalidField "rep_address")
    else validationError
  match c.Capacity with
  | none => none
  | some capacity =>
    let validationError :=
      match capacity.Validate ops with
      | some err => ops.Append validationError err
      | none => validationError
    if ¬ ops.Empty validationError = true then some (some (.ValidationError validationError))
    else some none

/-- `CellSet`, a Go map from a cell id to a cell presence: a list of entries with
at most one entry per key. -/
abbrev CellSet := List (String × CellPresence)

/-- `NewCellSet`: the empty map. -/
def NewCellSet : CellSet := []

/-- The map lookup `set[cellID]`. -/
def CellSet.get (set : CellSet) (cellID : String) : Option CellPresence :=
  (set.find? (fun entry => entry.1 = cellID)).map (fun entry => entry.2)

/-- The map assignment `set[cellID] = cell`: the entry of the key is replaced. -/
def CellSet.put (set : CellSet) (cellID : String) (cell : CellPresence) : CellSet :=
  (cellID, cell) :: set.filter (fun entry => ¬ entry.1 = cellID)

/-- `CellSet.Add`, on a pointer to a cell presence; `none` is the panic of
`cell.CellId` on a nil pointer. -/
def CellSet.Add (set : CellSet) (cell : Option CellPresence) : Option CellSet :=
  match cell with
  | none => none
  | some c => some (set.put c.CellId c)

/-- `NewCellSetFromList`; `none` when an `Add` panics. -/
def NewCellSetFromList (cells : List (Option CellPresence)) : Option CellSet :=
  cells.foldl
    (fun (cellSet : Option CellSet) v =>
      match cellSet with
      | none => none
      | some set => set.Add v)
    (some NewCellSet)

/-- `CellSet.HasCellID`. -/
def CellSet.HasCellID (set : CellSet) (cellID : String) : Bool :=
  match set.get cellID with
  | some _ => true
  | none => false

/-- The violated fields of a capacity, in the order of the checks. -/
def capacityViolations (cap : CellCapacity) : List String :=
  (if cap.MemoryMb ≤ 0 then ["memory_mb"] else [])
    ++ (if cap.DiskMb < 0 then ["disk_mb"] else [])
    ++ (if cap.Containers ≤ 0 then ["containers"] else [])

/-- The errors a cell presence with the capacity `capacity` gives rise to, in the
order of the checks. -/
def presenceViolations {VE : Type} (ops : ValidationErrorOps VE) (c : CellPresence)
    (capacity : CellCapacity) : List (GoError VE) :=
  (if c.CellId = "" then [.ErrInvalidField "cell_id"] else [])
    ++ (if c.RepAddress = "" then [.ErrInvalidField "rep_address"] else [])
    ++ (match capacity.Validate ops with
        | some err => [err]
        | none => [])

/-- A `ValidationError` as a slice of errors: `Append` adds an error at the end (the
errors of a `ValidationError` one by one), `Empty` tests the length. -/
def sliceValidationError : ValidationErrorOps (List String) where
  zero := []
  Append := fun ve err =>
    match err with
    | .ErrInvalidField field => ve ++ [field]
    | .ValidationError inner => ve ++ inner
  Empty := fun ve => ve.isEmpty

/-- A cell presence with its capacity. -/
def sampleCell (cellID repAddress : String) (memoryMB : Int) : CellPresence :=
  { CellId := cellID, RepAddress := repAddress, Zone := "z1",
    Capacity := some (NewCellCapacity memoryMB 0 10), RootfsProviders := [] }

/-- The map built from a list of cell presences by successive assignments. -/
def cellSetOf (cells : List CellPresence) : CellSet :=
  cells.foldl (fun set c => CellSet.put set c.CellId c) NewCellSet

/-- Three cell presences, the first and the last with the same `CellId`. -/
def sampleCells : List CellPresence :=
  [sampleCell "c1" "r1" 1, sampleCell "c2" "r2" 2, sampleCell "c1" "r3" 3]

/-! ## Tasks (task state machine of the spec, §4.4) -/

/-- Modelled from the spec: the states of a task. The task state machine of §4.4 is
known through its API test (`cmd/bbs/task_test.go`) only. -/
inductive TaskState where
  | Pending
  | Running
  | Completed
  | Resolving
deriving DecidableEq, Repr

/-- Modelled from the spec: the definition of a task, a payload that is validated
but not interpreted. -/
structure TaskDefinition where
  Payload : String
deriving DecidableEq, Repr

/-- Modelled from the spec: the record of a task (§3), without the modification
tag, whose handling for tasks the spec does not describe. The timestamps are
readings of the store's clock; `FirstCompletedAt` is 0 until the task
completes. -/
structure Task where
  TaskGuid : String
  Domain : String
  TaskDefinition : TaskDefinition
  State : TaskState
  CellId : String
  Result : String
  Failed : Bool
  FailureReason : String
  CreatedAt : Nat
  UpdatedAt : Nat
  FirstCompletedAt : Nat
deriving DecidableEq, Repr

/-- Modelled from the spec: the state the task operations act on, with the task
records of the KV (one per `TaskGuid`), the clock that provides the timestamps
and the cell-cancel side effects emitted so far (cell, task guid). The
operations are taken one at a time, without concurrent writers: the `Get` and
the `CompareAndSwap` of an operation see the same version, so no
`ResourceConflict` arises. -/
structure TaskStore where
  tasks : List Task
  clock : Nat
  cellCancels : List (String × String)
deriving DecidableEq, Repr

/-- Modelled from the spec: `Get` of the record of a task. -/
def TaskStore.find (s : TaskStore) (taskGuid : String) : Option Task :=
  s.tasks.find? (fun t => t.TaskGuid = taskGuid)

/-- Modelled from the spec: the write of the record `task` over the record of its
guid, at the current reading of the clock. -/
def TaskStore.write (s : TaskStore) (task : Task) : TaskStore :=
  { s with
    tasks := s.tasks.map (fun t => if t.TaskGuid = task.TaskGuid then task else t),
    clock := s.clock + 1 }

/-- Modelled from the spec: `TaskByGuid`, a single `Get`. -/
def TaskByGuid (s : TaskStore) (taskGuid : String) : Except ErrorType Task :=
  match s.find taskGuid with
  | some t => .ok t
  | none => .error .ResourceNotFound

/-- Modelled from the spec: `DesireTask(guid, domain, def)`, which validates the
definition (`valid`) and the non-empty domain and creates a record with
`State = Pending`; `ResourceExists` if the guid is already present,
`InvalidRequest` on validation. -/
def DesireTask (valid : TaskDefinition → Bool) (s : TaskStore) (taskGuid domain : String)
    (definition : TaskDefinition) : Option ErrorType × TaskStore :=
  if domain = "" ∨ valid definition = false then (some .InvalidRequest, s)
  else
    match s.find taskGuid with
    | some _ => (some .ResourceExists, s)
    | none =>
      (none,
        { s with
          tasks := s.tasks ++
            [ { TaskGuid := taskGuid, Domain := domain, TaskDefinition := definition,
                State := .Pending, CellId := "", Result := "", Failed := false,
                FailureReason := "", CreatedAt := s.clock, UpdatedAt := s.clock,
                FirstCompletedAt := 0 } ],
          clock := s.clock + 1 })

/-- Modelled from the spec: `StartTask(guid, cellId) → shouldStart`. A `Pending`
record becomes `Running` on the cell (`true`); a record already `Running` on the
same cell is left alone (`false`); `Running` on a different cell, or any later
state, is `InvalidStateTransition`. -/
def StartTask (s : TaskStore) (taskGuid cellId : String) :
    (Bool × Option ErrorType) × TaskStore :=
  match s.find taskGuid with
  | none => ((false, some .ResourceNotFound), s)
  | some t =>
    match t.State with
    | .Pending =>
      ((true, none), s.write { t with State := .Running, CellId := cellId, UpdatedAt := s.clock })
    | .Running =>
      if t.CellId = cellId then ((false, none), s)
      else ((false, some .InvalidStateTransition), s)
    | _ => ((false, some .InvalidStateTransition), s)

/-- Modelled from the spec: the completion of a task as a failure that no cell
reports (cancellation and `FailTask`): `Completed`, `Failed = true`, the given
reason, the cell cleared. -/
def Task.failed (t : Task) (reason : String) (now : Nat) : Task :=
  { t with
    State := .Completed, Failed := true, FailureReason := reason, CellId := "",
    UpdatedAt := now, FirstCompletedAt := now }

/-- Modelled from the spec: `CancelTask(guid)`, permitted from `Pending` or
`Running`; the record becomes `Completed` with `Failed = true` and the literal
reason `task was cancelled`, and a task that was `Running` has a cell-cancel
emitted after the write. From `Completed` or `Resolving`:
`InvalidStateTransition`. -/
def CancelTask (s : TaskStore) (taskGuid : String) : Option ErrorType × TaskStore :=
  match s.find taskGuid with
  | none => (some .ResourceNotFound, s)
  | some t =>
    match t.State with
    | .Pending => (none, s.write (t.failed "task was cancelled" s.clock))
    | .Running =>
      let s1 := s.write (t.failed "task was cancelled" s.clock)
      (none, { s1 with cellCancels := s1.cellCancels ++ [(t.CellId, taskGuid)] })
    | _ => (some .InvalidStateTransition, s)

/-- Modelled from the spec: `FailTask(guid, reason)`, permitted from `Pending` or
`Running`; the record becomes `Completed` with `Failed = true` and the reason. -/
def FailTask (s : TaskStore) (taskGuid reason : String) : Option ErrorType × TaskStore :=
  match s.find taskGuid with
  | none => (some .ResourceNotFound, s)
  | some t =>
    match t.State with
    | .Pending => (none, s.write (t.failed reason s.clock))
    | .Running => (none, s.write (t.failed reason s.clock))
    | _ => (some .InvalidStateTransition, s)

/-- Modelled from the spec: `CompleteTask(guid, cellId, failed, reason, result)`,
permitted from `Running` on the cell `cellId`; the record becomes `Completed`
with the given `Failed`, `FailureReason` and `Result`. The spec does not name
the error of a cell that does not match; it is taken to be
`InvalidStateTransition`, as for the other refusals. -/
def CompleteTask (s : TaskStore) (taskGuid cellId : String) (failed : Bool)
    (reason result : String) : Option ErrorType × TaskStore :=
  match s.find taskGuid with
  | none => (some .ResourceNotFound, s)
  | some t =>
    match t.State with
    | .Running =>
      if t.CellId = cellId then
        (none,
          s.write
            { t with
              State := .Completed, Failed := failed, FailureReason := reason, Result := result,
              UpdatedAt := s.clock, FirstCompletedAt := s.clock })
      else (some .InvalidStateTransition, s)
    | _ => (some .InvalidStateTransition, s)

/-- Modelled from the spec: `ResolvingTask(guid)`, permitted from `Completed`; from
any other state `InvalidStateTransition`. -/
def ResolvingTask (s : TaskStore) (taskGuid : String) : Option ErrorType × TaskStore :=
  match s.find taskGuid with
  | none => (some .ResourceNotFound, s)
  | some t =>
    match t.State with
    | .Completed => (none, s.write { t with State := .Resolving, UpdatedAt := s.clock })
    | _ => (some .InvalidStateTransition, s)

/-- Modelled from the spec: `DeleteTask(guid)`, permitted only from `Resolving`;
it removes the record. -/
def DeleteTask (s : TaskStore) (taskGuid : String) : Option ErrorType × TaskStore :=
  match s.find taskGuid with
  | none => (some .ResourceNotFound, s)
  | some t =>
    match t.State with
    | .Resolving =>
      (none,
        { s with
          tasks := s.tasks.filter (fun u => ¬ u.TaskGuid = taskGuid),
          clock := s.clock + 1 })
    | _ => (some .InvalidStateTransition, s)

/-- A call of the task API. -/
inductive TaskOp where
  | desire (taskGuid domain : String) (definition : TaskDefinition)
  | start (taskGuid cellId : String)
  | cancel (taskGuid : String)
  | fail (taskGuid reason : String)
  | complete (taskGuid cellId : String) (failed : Bool) (reason result : String)
  | resolving (taskGuid : String)
  | delete (taskGuid : String)
deriving DecidableEq, Repr

/-- The state a call of the task API leaves. -/
def TaskOp.apply (valid : TaskDefinition → Bool) (op : TaskOp) (s : TaskStore) : TaskStore :=
  match op with
  | .desire taskGuid domain definition => (DesireTask valid s taskGuid domain definition).2
  | .start taskGuid cellId => (StartTask s taskGuid cellId).2
  | .cancel taskGuid => (CancelTask s taskGuid).2
  | .fail taskGuid reason => (FailTask s taskGuid reason).2
  | .complete taskGuid cellId failed reason result =>
    (CompleteTask s taskGuid cellId failed reason result).2
  | .resolving taskGuid => (ResolvingTask s taskGuid).2
  | .delete taskGuid => (DeleteTask s taskGuid).2

/-- The state of a task as `TaskByGuid` shows it: `none` when there is no record. -/
def observe (s : TaskStore) (taskGuid : String) : Option TaskState :=
  (s.find taskGuid).map (fun t => t.State)

/-- The states of a task observed after each call of a sequence of calls. -/
def observations (valid : TaskDefinition → Bool) (taskGuid : String) :
    List TaskOp → TaskStore → List (Option TaskState)
  | [], _ => []
  | op :: rest, s =>
    observe (op.apply valid s) taskGuid :: observations valid taskGuid rest (op.apply valid s)

/-- The position of an observed state on the path `Pending`, `Running`, `Completed`,
`Resolving`, (deleted). -/
def stateRank : Option TaskState → Nat
  | some .Pending => 0
  | some .Running => 1
  | some .Completed => 2
  | some .Resolving => 3
  | none => 4

/-- One step of the state machine as it is observed: a stored task keeps its state,
moves forward or is deleted; an absent task stays absent or is created as
`Pending`. -/
def ObservedStep (a b : Option TaskState) : Prop :=
  (a ≠ none → stateRank a ≤ stateRank b) ∧ (a = none → b = none ∨ b = some .Pending)

/-- A store without any task. -/
def emptyTasks : TaskStore :=
  { tasks := [], clock := 1, cellCancels := [] }

/-- A validation that accepts every definition. -/
def anyDefinition (_definition : TaskDefinition) : Bool := true

/-- A store with the pending task `t1`. -/
def pendingTasks : TaskStore :=
  (DesireTask anyDefinition emptyTasks "t1" "d" { Payload := "def" }).2

/-- Whether a call is a `DesireTask` that carries the guid. -/
def TaskOp.desires (op : TaskOp) (taskGuid : String) : Bool :=
  match op with
  | .desire key _ _ => key = taskGuid
  | _ => false

/-- The guid names one task (`TaskGuid` is globally unique, §3): along the calls of
the sequence, a `DesireTask` carries the guid only while the record of the task
is stored (the call is then refused with `ResourceExists`), never to create a
record for it again. -/
def GuidNotReused (valid : TaskDefinition → Bool) (taskGuid : String) :
    List TaskOp → TaskStore → Prop
  | [], _ => True
  | op :: rest, s =>
    (op.desires taskGuid = true → observe s taskGuid ≠ none) ∧
      GuidNotReused valid taskGuid rest (op.apply valid s)

instance GuidNotReused.decidable (valid : TaskDefinition → Bool) (taskGuid : String) :
    (ops : List TaskOp) → (s : TaskStore) → Decidable (GuidNotReused valid taskGuid ops s)
  | [], _ => isTrue trivial
  | op :: rest, s =>
    match GuidNotReused.decidable valid taskGuid rest (op.apply valid s) with
    | isTrue hrest =>
      if h : op.desires taskGuid = true → observe s taskGuid ≠ none then isTrue ⟨h, hrest⟩
      else isFalse (fun hall => h hall.1)
    | isFalse hrest => isFalse (fun hall => hrest hall.2)

/-- The path of the state machine of §4.4, the deletion last. -/
def taskPath : List (Option TaskState) :=
  [some .Pending, some .Running, some .Completed, some .Resolving, none]

/-- The happy path of the stored pending task `t1`, with a `DesireTask` of its guid
that is refused while the task runs. -/
def lifecycleOps : List TaskOp :=
  [ .start "t1" "cellA",
    .desire "t1" "d" { Payload := "def" },
    .complete "t1" "cellA" false "" "ok",
    .resolving "t1",
    .delete "t1" ]

/-! ## Lemmas -/

theorem filterMap_getElem?_range {α : Type} (l : List α) :
    (List.range l.length).filterMap (fun i => l[i]?) = l := by
  induction l using List.reverseRecOn with
  | nil => simp
  | append_singleton l a ih =>
    rw [List.length_append, List.length_singleton, List.range_succ, List.filterMap_append]
    have h1 : (List.range l.length).filterMap (fun i => (l ++ [a])[i]?)
        = (List.range l.length).filterMap (fun i => l[i]?) := by
      apply List.filterMap_congr
      intro i hi
      rw [List.mem_range] at hi
      simp [List.getElem?_append_left hi]
    rw [h1, ih]
    simp

theorem scheduled_perm {α : Type} (l : List α) (schedule : List Nat)
    (h : IsSchedule schedule l.length) :
    (schedule.filterMap (fun i => l[i]?)).Perm l := by
  have := List.Perm.filterMap (fun i => l[i]?) h
  rwa [filterMap_getElem?_range] at this

theorem scheduled_map {α β : Type} (f : α → β) (l : List α) (schedule : List Nat) :
    schedule.filterMap (fun i => (l.map f)[i]?)
      = (schedule.filterMap (fun i => l[i]?)).map f := by
  simp only [List.getElem?_map, List.map_filterMap]

theorem foldl_works_decodable (filter : DesiredLRPFilter) (l : List Node)
    (hdec : ∀ n ∈ l, ∃ lrp, deserializeModel n = .ok lrp) (st : FanOut) :
    (l.map (fun node => desiredLRPsWork filter node)).foldl (fun s work => work s) st
      = { desiredLRPs := st.desiredLRPs ++
            (decodedRecords l).filter
              (fun lrp => decide (filter.Domain = "" ∨ lrp.Domain = filter.Domain)),
          workErr := st.workErr } := by
  induction l generalizing st with
  | nil => simp [decodedRecords]
  | cons n rest ih =>
    obtain ⟨lrp, hl⟩ := hdec n (List.mem_cons_self _ _)
    have hrest : ∀ m ∈ rest, ∃ lrp, deserializeModel m = .ok lrp :=
      fun m hm => hdec m (List.mem_cons_of_mem _ hm)
    simp only [List.map_cons, List.foldl_cons]
    rw [ih hrest]
    by_cases hp : filter.Domain = "" ∨ lrp.Domain = filter.Domain
    · simp [desiredLRPsWork, decodedRecords, hl, hp, List.filter_cons]
    · simp [desiredLRPsWork, decodedRecords, hl, hp, List.filter_cons]

theorem foldl_works_keeps_workErr (filter : DesiredLRPFilter) (l : List Node) (st : FanOut)
    (h : st.workErr.isSome = true) :
    ((l.map (fun node => desiredLRPsWork filter node)).foldl
      (fun s work => work s) st).workErr.isSome = true := by
  induction l generalizing st with
  | nil => simpa using h
  | cons n rest ih =>
    simp only [List.map_cons, List.foldl_cons]
    apply ih
    unfold desiredLRPsWork
    split
    · rfl
    · split <;> exact h

theorem foldl_works_undecodable (filter : DesiredLRPFilter) (l : List Node) (st : FanOut)
    (h : ∃ n ∈ l, ∃ e, deserializeModel n = .error e) :
    ((l.map (fun node => desiredLRPsWork filter node)).foldl
      (fun s work => work s) st).workErr.isSome = true := by
  induction l generalizing st with
  | nil => simp at h
  | cons m rest ih =>
    simp only [List.map_cons, List.foldl_cons]
    obtain ⟨n, hn, e, he⟩ := h
    rcases List.mem_cons.mp hn with rfl | hrest
    · apply foldl_works_keeps_workErr
      simp [desiredLRPsWork, he]
    · exact ih _ ⟨n, hrest, e, he⟩

theorem wrapInt32_of_isInt32 (x : Int) (h : IsInt32 x) : wrapInt32 x = x := by
  unfold IsInt32 at h
  unfold wrapInt32
  omega

theorem intRange_length (lower upper : Int) :
    (intRange lower upper).length = (upper - lower).toNat := by
  simp [intRange]

theorem mem_intRange (lower upper i : Int) :
    i ∈ intRange lower upper ↔ lower ≤ i ∧ i < upper := by
  simp only [intRange, List.mem_map, List.mem_range]
  constructor
  · rintro ⟨j, hj, rfl⟩
    omega
  · rintro ⟨h1, h2⟩
    exact ⟨(i - lower).toNat, by omega, by omega⟩

theorem intRange_pairwise_lt (lower upper : Int) :
    (intRange lower upper).Pairwise (fun a b => a < b) := by
  unfold intRange
  rw [List.pairwise_map]
  exact (List.pairwise_lt_range _).imp (fun h => by omega)

theorem derefKeys_map_some (ks : List ActualLRPKey) : derefKeys (ks.map some) = some ks := by
  induction ks with
  | nil => rfl
  | cons k rest ih => simp [derefKeys, ih]

theorem fill_keys (guid domain : String) (is : List Int) (pre : List (Option ActualLRPKey))
    (k : Nat) :
    is.foldl
        (fun (acc : Option (List (Option ActualLRPKey) × Nat)) actualIndex =>
          match acc with
          | none => none
          | some (keys, i) =>
            if i < keys.length then
              some (keys.set i (some (NewActualLRPKey guid actualIndex domain)), i + 1)
            else none)
        (some (pre ++ List.replicate (is.length + k) none, pre.length))
      = some (pre ++ is.map (fun i => some (NewActualLRPKey guid i domain))
          ++ List.replicate k none, pre.length + is.length) := by
  induction is generalizing pre with
  | nil => simp
  | cons a rest ih =>
    simp only [List.foldl_cons, List.length_cons, List.length_append, List.length_replicate]
    have hlt : pre.length < pre.length + (rest.length + 1 + k) := by omega
    rw [if_pos hlt]
    have hset : (pre ++ List.replicate (rest.length + 1 + k) none).set pre.length
          (some (NewActualLRPKey guid a domain))
        = (pre ++ [some (NewActualLRPKey guid a domain)]) ++ List.replicate (rest.length + k) none := by
      have : rest.length + 1 + k = (rest.length + k) + 1 := by omega
      rw [this, List.replicate_succ, List.set_append_right _ _ (le_refl _)]
      simp
    rw [hset]
    have := ih (pre ++ [some (NewActualLRPKey guid a domain)])
    simp only [List.length_append, List.length_singleton] at this
    rw [this]
    simp
    omega

theorem startInstanceRange_keys_eq (lower upper : Int) (desiredLRP : DesiredLRP)
    (hle : lower ≤ upper) (hfit : IsInt32 (upper - lower)) :
    startInstanceRange.keys lower upper desiredLRP
      = some ((rangeKeys lower upper desiredLRP).map some) := by
  unfold startInstanceRange.keys
  simp only [wrapInt32_of_isInt32 _ hfit]
  rw [if_neg (by omega)]
  have h := fill_keys desiredLRP.ProcessGuid desiredLRP.Domain (intRange lower upper) [] 0
  simp only [List.nil_append, List.length_nil, Nat.add_zero, List.replicate_zero,
    List.append_nil, intRange_length, Nat.zero_add] at h
  rw [h]
  simp [rangeKeys]

theorem foldl_createUnclaimedActualLRP (ks : List ActualLRPKey) (acc : List Int) (w : World)
    (hdistinct : ks.Pairwise
      (fun a b => ¬ (a.ProcessGuid = b.ProcessGuid ∧ a.Index = b.Index))) :
    ks.foldl createUnclaimedActualLRP (acc, w)
      = (acc ++ (ks.filter (fun key => !w.hasActual key)).map (fun key => key.Index),
          { w with
            actuals := w.actuals
              ++ (ks.filter (fun key => !w.hasActual key)).map unclaimedActual }) := by
  induction ks generalizing acc w with
  | nil => simp
  | cons k rest ih =>
    rw [List.pairwise_cons] at hdistinct
    obtain ⟨hk, hrest⟩ := hdistinct
    simp only [List.foldl_cons]
    by_cases hhas : w.hasActual k = true
    · have hstep : createUnclaimedActualLRP (acc, w) k = (acc, w) := by
        simp [createUnclaimedActualLRP, hhas]
      rw [hstep, ih acc w hrest]
      simp [List.filter_cons, hhas]
    · have hstep : createUnclaimedActualLRP (acc, w) k
          = (acc ++ [k.Index], { w with actuals := w.actuals ++ [unclaimedActual k] }) := by
        simp [createUnclaimedActualLRP, hhas]
      rw [hstep, ih _ _ hrest]
      have hsame : rest.filter
            (fun key => !({ w with actuals := w.actuals ++ [unclaimedActual k] } : World).hasActual key)
          = rest.filter (fun key => !w.hasActual key) := by
        apply List.filter_congr
        intro k2 hk2
        have hne := hk k2 hk2
        have : ¬ (k.ProcessGuid = k2.ProcessGuid ∧ k.Index = k2.Index) := hne
        simp only [World.hasActual, List.any_append, List.any_cons, List.any_nil, Bool.or_false,
          unclaimedActual]
        simp [this]
      rw [hsame]
      simp [List.filter_cons, hhas]

theorem rangeKeys_distinct (lower upper : Int) (desiredLRP : DesiredLRP) :
    (rangeKeys lower upper desiredLRP).Pairwise
      (fun a b => ¬ (a.ProcessGuid = b.ProcessGuid ∧ a.Index = b.Index)) := by
  unfold rangeKeys
  rw [List.pairwise_map]
  refine (intRange_pairwise_lt lower upper).imp ?_
  intro a b hab h
  simp only [NewActualLRPKey] at h
  omega

theorem startInstanceRange_eq (w : World) (lower upper : Int) (desiredLRP : DesiredLRP)
    (hle : lower ≤ upper) (hfit : IsInt32 (upper - lower)) :
    startInstanceRange w lower upper desiredLRP
      = some (afterStartRange w lower upper desiredLRP) := by
  unfold startInstanceRange
  rw [startInstanceRange_keys_eq lower upper desiredLRP hle hfit]
  simp only [createUnclaimedActualLRPs, derefKeys_map_some]
  rw [foldl_createUnclaimedActualLRP _ _ _ (rangeKeys_distinct lower upper desiredLRP)]
  cases hErr : w.auctioneerErr <;>
    simp [auctioneerClient.RequestLRPAuctions, hErr, afterStartRange, missingKeys,
      NewLRPStartRequestFromModel, World.hasActual]

theorem stopInstanceRange_actualKeys_eq (actualsMap : Int → Option ActualLRP)
    (lower upper : Int) :
    stopInstanceRange.actualKeys actualsMap lower upper
      = (intRange lower upper).filterMap
          (fun i => (actualsMap i).map (fun a => a.ActualLRPKey)) := by
  unfold stopInstanceRange.actualKeys
  suffices h : ∀ (l : List Int) (acc : List ActualLRPKey),
      l.foldl
        (fun actualKeys i =>
          match actualsMap i with
          | some actual => actualKeys ++ [actual.ActualLRPKey]
          | none => actualKeys) acc
        = acc ++ l.filterMap (fun i => (actualsMap i).map (fun a => a.ActualLRPKey)) by
    simpa using h (intRange lower upper) []
  intro l
  induction l with
  | nil => simp
  | cons i rest ih =>
    intro acc
    simp only [List.foldl_cons, List.filterMap_cons]
    cases hi : actualsMap i <;> simp [ih]

theorem stopInstanceRange_eq (w : World) (lower upper : Int) (desiredLRP : DesiredLRP) :
    stopInstanceRange w lower upper desiredLRP = afterStopRange w lower upper desiredLRP := by
  unfold stopInstanceRange afterStopRange instanceActualLRPsByProcessGuid
  cases hErr : w.actualLookupErr with
  | some e => simp
  | none =>
    simp only [stopInstanceRange_actualKeys_eq, retireActualLRPs, storedKeys]
    simp

theorem ApplyUpdate_ProcessGuid (lrp : DesiredLRP) (update : DesiredLRPUpdate) :
    (lrp.ApplyUpdate update).ProcessGuid = lrp.ProcessGuid := by
  unfold DesiredLRP.ApplyUpdate
  cases update.Instances <;> cases update.Routes <;> cases update.Annotation <;> rfl

theorem ApplyUpdate_ModificationTag (lrp : DesiredLRP) (update : DesiredLRPUpdate) :
    (lrp.ApplyUpdate update).ModificationTag = lrp.ModificationTag := by
  unfold DesiredLRP.ApplyUpdate
  cases update.Instances <;> cases update.Routes <;> cases update.Annotation <;> rfl

theorem ApplyUpdate_Instances (lrp : DesiredLRP) (update : DesiredLRPUpdate) :
    (lrp.ApplyUpdate update).Instances = update.Instances.getD lrp.Instances := by
  unfold DesiredLRP.ApplyUpdate
  cases update.Instances <;> cases update.Routes <;> cases update.Annotation <;> rfl

/-- The equation of `UpdateDesiredLRP` once the `Get` has succeeded: the write of
the updated record, then the placement chosen by the wrapped difference. -/
theorem UpdateDesiredLRP_of_get (w : World) (concurrent : World → World) (processGuid : String)
    (update : DesiredLRPUpdate) (lrp : DesiredLRP) (index : Nat)
    (hget : rawDesiredLRPByProcessGuid w processGuid = .ok (lrp, index)) :
    UpdateDesiredLRP w concurrent processGuid update =
      match client.CompareAndSwap (concurrent w) (DesiredLRPSchemaPath (updatedLRP lrp update))
          (.encoded (updatedLRP lrp update)) index with
      | (.error _, w1) => some (some .DesiredLRPCannotBeUpdated, w1)
      | (.ok _, w1) =>
        if wrapInt32 ((updatedLRP lrp update).Instances - lrp.Instances) > 0 then
          match startInstanceRange w1 lrp.Instances (updatedLRP lrp update).Instances
            (updatedLRP lrp update) with
          | none => none
          | some w2 => some (none, w2)
        else if wrapInt32 ((updatedLRP lrp update).Instances - lrp.Instances) < 0 then
          some (none, stopInstanceRange w1 (updatedLRP lrp update).Instances lrp.Instances
            (updatedLRP lrp update))
        else some (none, w1) := by
  simp only [UpdateDesiredLRP, hget, serializeModel]
  rfl

theorem foldl_createUnclaimedActualLRP_desired (ks : List ActualLRPKey) (acc : List Int × World) :
    (ks.foldl createUnclaimedActualLRP acc).2.desired = acc.2.desired := by
  induction ks generalizing acc with
  | nil => rfl
  | cons k rest ih =>
    simp only [List.foldl_cons]
    rw [ih]
    unfold createUnclaimedActualLRP
    split <;> rfl

theorem startInstanceRange_desired (w w2 : World) (lower upper : Int) (desiredLRP : DesiredLRP)
    (h : startInstanceRange w lower upper desiredLRP = some w2) : w2.desired = w.desired := by
  unfold startInstanceRange at h
  simp only at h
  split at h
  · cases h
  · rename_i keys hkeys
    unfold createUnclaimedActualLRPs at h
    split at h
    · cases h
    · rename_i created w1 hcreate
      split at hcreate
      · cases hcreate
      · rename_i ks hks
        have hd := foldl_createUnclaimedActualLRP_desired ks
          ([], { w with events := w.events ++ [.startRange lower upper] ++ [.createUnclaimed keys] })
        simp only [Option.some.injEq] at hcreate
        rw [hcreate] at hd
        simp only at hd
        unfold auctioneerClient.RequestLRPAuctions at h
        split at h <;>
        · rename_i heq
          simp only [Prod.mk.injEq] at heq
          simp only [Option.some.injEq] at h
          rw [← h, ← heq.2]
          exact hd

theorem stopInstanceRange_desired (w : World) (lower upper : Int) (desiredLRP : DesiredLRP) :
    (stopInstanceRange w lower upper desiredLRP).desired = w.desired := by
  rw [stopInstanceRange_eq]
  unfold afterStopRange
  cases w.actualLookupErr <;> rfl

theorem find?_replace (key : String) (node : Node) (hkey : node.Key = key) (l : List Node)
    (n : Node) (h : l.find? (fun m => m.Key = key) = some n) :
    (l.map (fun m => if m.Key = key then node else m)).find? (fun m => m.Key = key)
      = some node := by
  induction l with
  | nil => simp at h
  | cons m rest ih =>
    by_cases hm : m.Key = key
    · simp [List.find?_cons, hm, hkey]
    · simp only [List.find?_cons, hm, decide_False] at h
      simp [List.find?_cons, hm, ih h]

theorem CompareAndSwap_ok (w w1 : World) (key : String) (value : Blob) (prevIndex : Nat)
    (node : Node) (h : client.CompareAndSwap w key value prevIndex = (.ok node, w1)) :
    fetchRaw w1 key = .ok node ∧ node.Value = value ∧
      ∃ old, fetchRaw w key = .ok old ∧ old.ModifiedIndex = prevIndex := by
  unfold client.CompareAndSwap at h
  split at h
  · simp at h
  · rename_i n hn
    split at h
    · rename_i hidx
      simp only [Prod.mk.injEq, Except.ok.injEq] at h
      obtain ⟨hnode, hw1⟩ := h
      refine ⟨?_, ?_, n, ?_, hidx⟩
      · subst hw1
        simp only [fetchRaw, World.nodes, Option.getD_some]
        have := find?_replace key node (by rw [← hnode]) _ n hn
        simp only [World.nodes] at this
        rw [hnode, this]
      · rw [← hnode]
      · simp only [fetchRaw, hn]
    · simp at h

theorem Create_ok (w w1 : World) (key : String) (value : Blob) (node : Node)
    (h : client.Create w key value = (.ok node, w1)) :
    fetchRaw w1 key = .ok node ∧ node.Value = value ∧ fetchRaw w key = .error .ResourceNotFound := by
  unfold client.Create at h
  split at h
  · simp at h
  · rename_i hnone
    simp only [Prod.mk.injEq, Except.ok.injEq] at h
    obtain ⟨hnode, hw1⟩ := h
    refine ⟨?_, by rw [← hnode], by simp only [fetchRaw, hnone]⟩
    subst hw1
    simp only [fetchRaw, World.nodes, Option.getD_some, List.find?_append]
    simp only [World.nodes] at hnone
    rw [hnone, ← hnode]
    simp

theorem fetchRaw_congr (w w1 : World) (key : String) (h : w1.desired = w.desired) :
    fetchRaw w1 key = fetchRaw w key := by
  simp only [fetchRaw, World.nodes, h]

theorem raw_of_fetchRaw (w : World) (processGuid : String) (node : Node) (lrp : DesiredLRP)
    (hfetch : fetchRaw w (DesiredLRPSchemaPathByProcessGuid processGuid) = .ok node)
    (hvalue : node.Value = .encoded lrp) :
    rawDesiredLRPByProcessGuid w processGuid = .ok (lrp, node.ModifiedIndex) := by
  simp only [rawDesiredLRPByProcessGuid, hfetch, deserializeModel, hvalue]

theorem updatedLRP_ProcessGuid (lrp : DesiredLRP) (update : DesiredLRPUpdate) :
    (updatedLRP lrp update).ProcessGuid = lrp.ProcessGuid :=
  ApplyUpdate_ProcessGuid lrp update

theorem updatedLRP_ModificationTag (lrp : DesiredLRP) (update : DesiredLRPUpdate) :
    (updatedLRP lrp update).ModificationTag
      = { Epoch := lrp.ModificationTag.Epoch,
          Index := (lrp.ModificationTag.Index + 1) % 18446744073709551616 } := by
  simp only [updatedLRP, ApplyUpdate_ModificationTag, ModificationTag.Increment]

/-- A successful update leaves, under the key of the written record, the stored
record with the update applied and the tag incremented. -/
theorem UpdateDesiredLRP_written (w w2 : World) (concurrent : World → World)
    (processGuid : String) (update : DesiredLRPUpdate) (lrp : DesiredLRP) (index : Nat)
    (hget : rawDesiredLRPByProcessGuid w processGuid = .ok (lrp, index))
    (hok : UpdateDesiredLRP w concurrent processGuid update = some (none, w2)) :
    ∃ node, fetchRaw w2 (DesiredLRPSchemaPath (updatedLRP lrp update)) = .ok node ∧
      node.Value = .encoded (updatedLRP lrp update) := by
  rw [UpdateDesiredLRP_of_get w concurrent processGuid update lrp index hget] at hok
  split at hok
  · simp at hok
  · rename_i node w1 hcas
    obtain ⟨hfetch, hvalue, _⟩ := CompareAndSwap_ok _ _ _ _ _ _ hcas
    refine ⟨node, ?_, hvalue⟩
    split at hok
    · split at hok
      · cases hok
      · rename_i w3 hstart
        simp only [Option.some.injEq, Prod.mk.injEq, true_and] at hok
        subst hok
        rw [fetchRaw_congr _ _ _ (startInstanceRange_desired _ _ _ _ _ hstart)]
        exact hfetch
    · split at hok
      · simp only [Option.some.injEq, Prod.mk.injEq, true_and] at hok
        subst hok
        rw [fetchRaw_congr _ _ _ (stopInstanceRange_desired _ _ _ _)]
        exact hfetch
      · simp only [Option.some.injEq, Prod.mk.injEq, true_and] at hok
        subst hok
        exact hfetch

/-- A successful `DesireLRP` consumes one epoch of the entropy source and leaves,
under the key of the process, the record with that epoch and the index 0. -/
theorem DesireLRP_written (w w0 : World) (d : DesiredLRP)
    (hok : DesireLRP w d = some (none, w0)) :
    ∃ epoch rest node, w.entropy = some epoch :: rest ∧
      fetchRaw w0 (DesiredLRPSchemaPathByProcessGuid d.ProcessGuid) = .ok node ∧
      node.Value = .encoded { d with ModificationTag := { Epoch := epoch, Index := 0 } } ∧
      fetchRaw w (DesiredLRPSchemaPathByProcessGuid d.ProcessGuid) = .error .ResourceNotFound := by
  unfold DesireLRP at hok
  split at hok
  · simp at hok
  · rename_i guid w1 huuid
    simp only [serializeModel] at hok
    split at hok
    · simp at hok
    · rename_i node w2 hcreate
      have hentropy : w.entropy = some guid :: w1.entropy ∧ w1.desired = w.desired := by
        unfold uuid.NewV4 at huuid
        split at huuid
        · simp at huuid
        · rename_i r rest hr
          simp only [Prod.mk.injEq] at huuid
          obtain ⟨h1, h2⟩ := huuid
          subst h2
          exact ⟨by rw [hr, h1], rfl⟩
      obtain ⟨hfetch, hvalue, habsent⟩ := Create_ok _ _ _ _ _ hcreate
      refine ⟨guid, w1.entropy, node, hentropy.1, ?_, hvalue, ?_⟩
      · split at hok
        · cases hok
        · rename_i w3 hstart
          simp only [Option.some.injEq, Prod.mk.injEq, true_and] at hok
          subst hok
          rw [fetchRaw_congr _ _ _ (startInstanceRange_desired _ _ _ _ _ hstart)]
          exact hfetch
      · rw [← fetchRaw_congr w w1 _ hentropy.2]
        exact habsent

theorem runUpdates_tag (processGuid : String) (us : List (DesiredLRPUpdate × (World → World)))
    (w wk : World) (lrp : DesiredLRP) (index : Nat)
    (hget : rawDesiredLRPByProcessGuid w processGuid = .ok (lrp, index))
    (hguid : lrp.ProcessGuid = processGuid)
    (hlt : lrp.ModificationTag.Index < 18446744073709551616)
    (hrun : runUpdates processGuid us w = some wk) :
    ∃ lrpk indexk, rawDesiredLRPByProcessGuid wk processGuid = .ok (lrpk, indexk) ∧
      lrpk.ModificationTag.Epoch = lrp.ModificationTag.Epoch ∧
      lrpk.ModificationTag.Index
        = (lrp.ModificationTag.Index + us.length) % 18446744073709551616 ∧
      (us = [] → lrpk = lrp) := by
  induction us generalizing w lrp index with
  | nil =>
    simp only [runUpdates, Option.some.injEq] at hrun
    subst hrun
    refine ⟨lrp, index, hget, rfl, ?_, fun _ => rfl⟩
    simp only [List.length_nil, Nat.add_zero]
    omega
  | cons u rest ih =>
    obtain ⟨update, concurrent⟩ := u
    simp only [runUpdates] at hrun
    split at hrun
    · rename_i w1 hok
      obtain ⟨node, hfetch, hvalue⟩ :=
        UpdateDesiredLRP_written w w1 concurrent processGuid update lrp index hget hok
      have hpath : DesiredLRPSchemaPath (updatedLRP lrp update)
          = DesiredLRPSchemaPathByProcessGuid processGuid := by
        rw [DesiredLRPSchemaPath, updatedLRP_ProcessGuid, hguid]
      rw [hpath] at hfetch
      have hget1 := raw_of_fetchRaw w1 processGuid node _ hfetch hvalue
      obtain ⟨lrpk, indexk, hk, hepoch, hindex, _⟩ :=
        ih w1 (updatedLRP lrp update) node.ModifiedIndex hget1
          (by rw [updatedLRP_ProcessGuid, hguid])
          (by rw [updatedLRP_ModificationTag]; exact Nat.mod_lt _ (by decide)) hrun
      refine ⟨lrpk, indexk, hk, ?_, ?_, fun h => by cases h⟩
      · rw [hepoch, updatedLRP_ModificationTag]
      · rw [hindex, updatedLRP_ModificationTag]
        simp only [List.length_cons]
        omega
    · cases hrun

theorem missingKeys_congr (w w1 : World) (lower upper : Int) (desiredLRP : DesiredLRP)
    (h : w1.actuals = w.actuals) :
    missingKeys w1 lower upper desiredLRP = missingKeys w lower upper desiredLRP := by
  simp only [missingKeys, World.hasActual, h]

theorem missingKeys_of_no_actual (w : World) (lower upper : Int) (desiredLRP : DesiredLRP)
    (h : ∀ a ∈ w.actuals, a.ActualLRPKey.ProcessGuid ≠ desiredLRP.ProcessGuid) :
    missingKeys w lower upper desiredLRP = rangeKeys lower upper desiredLRP := by
  unfold missingKeys
  rw [List.filter_eq_self]
  intro key hkey
  simp only [rangeKeys, List.mem_map] at hkey
  obtain ⟨i, _, rfl⟩ := hkey
  simp only [World.hasActual, NewActualLRPKey, Bool.not_eq_true', List.any_eq_false,
    decide_eq_true_eq, not_and]
  intro a ha hguid
  exact absurd hguid (h a ha)

theorem DesireLRP_of_fresh (w : World) (d : DesiredLRP) (epoch : String)
    (rest : List (Option String))
    (hfresh : fetchRaw w (DesiredLRPSchemaPathByProcessGuid d.ProcessGuid)
      = .error .ResourceNotFound)
    (hentropy : w.entropy = some epoch :: rest) :
    DesireLRP w d =
      match startInstanceRange (afterCreate w d epoch rest) 0 d.Instances
          { d with ModificationTag := { Epoch := epoch, Index := 0 } } with
      | none => none
      | some w3 => some (none, w3) := by
  have hnone : w.nodes.find? (fun n => n.Key = DesiredLRPSchemaPathByProcessGuid d.ProcessGuid)
      = none := by
    unfold fetchRaw at hfresh
    split at hfresh
    · cases hfresh
    · assumption
  have hnone1 : (({ w with entropy := rest } : World).nodes).find?
      (fun n => n.Key = DesiredLRPSchemaPathByProcessGuid d.ProcessGuid) = none := hnone
  simp only [DesireLRP, uuid.NewV4, hentropy, serializeModel, client.Create, DesiredLRPSchemaPath,
    hnone1]
  rfl

theorem DesireLRP_fresh_eq (w : World) (d : DesiredLRP) (epoch : String)
    (rest : List (Option String))
    (hn0 : 0 ≤ d.Instances) (hnr : IsInt32 d.Instances)
    (hfresh : fetchRaw w (DesiredLRPSchemaPathByProcessGuid d.ProcessGuid)
      = .error .ResourceNotFound)
    (hentropy : w.entropy = some epoch :: rest) :
    DesireLRP w d = some (none, afterStartRange (afterCreate w d epoch rest) 0 d.Instances
      { d with ModificationTag := { Epoch := epoch, Index := 0 } }) := by
  have hfit : IsInt32 (d.Instances - 0) := by simpa using hnr
  rw [DesireLRP_of_fresh w d epoch rest hfresh hentropy,
    startInstanceRange_eq (afterCreate w d epoch rest) 0 d.Instances _ hn0 hfit]

theorem UpdateDesiredLRP_eq (w : World) (concurrent : World → World)
    (processGuid : String) (update : DesiredLRPUpdate) (lrp : DesiredLRP) (index : Nat)
    (node : Node) (w1 : World)
    (hget : rawDesiredLRPByProcessGuid w processGuid = .ok (lrp, index))
    (hcas : client.CompareAndSwap (concurrent w) (DesiredLRPSchemaPath (updatedLRP lrp update))
      (.encoded (updatedLRP lrp update)) index = (.ok node, w1))
    (hold : 0 ≤ lrp.Instances ∧ IsInt32 lrp.Instances)
    (hnew : 0 ≤ (updatedLRP lrp update).Instances ∧ IsInt32 (updatedLRP lrp update).Instances) :
    UpdateDesiredLRP w concurrent processGuid update
      = some (none, afterPlacement w1 lrp.Instances (updatedLRP lrp update).Instances
          (updatedLRP lrp update)) := by
  obtain ⟨hold0, holdr⟩ := hold
  obtain ⟨hnew0, hnewr⟩ := hnew
  unfold IsInt32 at holdr hnewr
  have hfit : IsInt32 ((updatedLRP lrp update).Instances - lrp.Instances) := by
    unfold IsInt32; omega
  have hwrap := wrapInt32_of_isInt32 _ hfit
  rw [UpdateDesiredLRP_of_get w concurrent processGuid update lrp index hget, hcas]
  simp only [hwrap, afterPlacement]
  rcases lt_trichotomy lrp.Instances (updatedLRP lrp update).Instances with hlt | heq | hgt
  · rw [if_pos (by omega), startInstanceRange_eq _ _ _ _ (le_of_lt hlt) hfit, if_pos hlt]
  · rw [if_neg (by omega), if_neg (by omega), if_neg (by omega), if_neg (by omega)]
  · rw [if_neg (by omega), if_pos (by omega), stopInstanceRange_eq, if_neg (by omega),
      if_pos hgt]

theorem afterPlacement_desired (w1 : World) (old new : Int) (lrp : DesiredLRP) :
    (afterPlacement w1 old new lrp).desired = w1.desired := by
  unfold afterPlacement
  split
  · rfl
  · split
    · unfold afterStopRange
      cases w1.actualLookupErr <;> rfl
    · rfl

theorem find?_actual_of_unique (actuals : List ActualLRP) (a : ActualLRP)
    (hunique : actuals.Pairwise
      (fun a b => ¬ (a.ActualLRPKey.ProcessGuid = b.ActualLRPKey.ProcessGuid ∧
        a.ActualLRPKey.Index = b.ActualLRPKey.Index)))
    (ha : a ∈ actuals) :
    actuals.find?
        (fun b => b.ActualLRPKey.ProcessGuid = a.ActualLRPKey.ProcessGuid ∧
          b.ActualLRPKey.Index = a.ActualLRPKey.Index) = some a := by
  induction actuals with
  | nil => cases ha
  | cons b rest ih =>
    rw [List.pairwise_cons] at hunique
    obtain ⟨hb, hrest⟩ := hunique
    rcases List.mem_cons.mp ha with rfl | hmem
    · simp [List.find?_cons]
    · have hne := hb a hmem
      have : ¬ (b.ActualLRPKey.ProcessGuid = a.ActualLRPKey.ProcessGuid ∧
          b.ActualLRPKey.Index = a.ActualLRPKey.Index) := hne
      simp only [List.find?_cons, this, decide_False]
      exact ih hrest hmem

theorem mem_storedKeys (w : World) (lower upper : Int) (processGuid : String)
    (hunique : UniqueActuals w) (key : ActualLRPKey) :
    key ∈ storedKeys w lower upper processGuid ↔
      ∃ a ∈ w.actuals, a.ActualLRPKey = key ∧ key.ProcessGuid = processGuid
        ∧ lower ≤ key.Index ∧ key.Index < upper := by
  simp only [storedKeys, List.mem_filterMap, mem_intRange, Option.map_eq_some']
  constructor
  · rintro ⟨i, ⟨h1, h2⟩, a, hfind, rfl⟩
    have hmem := List.mem_of_find?_eq_some hfind
    have hp := List.find?_some hfind
    simp only [decide_eq_true_eq] at hp
    exact ⟨a, hmem, rfl, hp.1, by rw [hp.2]; exact h1, by rw [hp.2]; exact h2⟩
  · rintro ⟨a, hmem, rfl, hguid, h1, h2⟩
    refine ⟨a.ActualLRPKey.Index, ⟨h1, h2⟩, a, ?_, rfl⟩
    rw [← hguid]
    exact find?_actual_of_unique w.actuals a hunique hmem

theorem storedKeys_ascending (w : World) (lower upper : Int) (processGuid : String) :
    (storedKeys w lower upper processGuid).Pairwise (fun a b => a.Index < b.Index) := by
  unfold storedKeys
  rw [List.pairwise_filterMap]
  refine (intRange_pairwise_lt lower upper).imp ?_
  intro i j hij a ha b hb
  simp only [Option.mem_def, Option.map_eq_some'] at ha hb
  obtain ⟨x, hx, rfl⟩ := ha
  obtain ⟨y, hy, rfl⟩ := hb
  have hpx := List.find?_some hx
  have hpy := List.find?_some hy
  simp only [decide_eq_true_eq] at hpx hpy
  rw [hpx.2, hpy.2]
  exact hij

theorem UpdateDesiredLRP_after_write (w w1 w2 : World) (concurrent : World → World)
    (processGuid : String) (update : DesiredLRPUpdate) (lrp : DesiredLRP) (index : Nat)
    (node : Node) (e : Option ErrorType)
    (hget : rawDesiredLRPByProcessGuid w processGuid = .ok (lrp, index))
    (hcas : client.CompareAndSwap (concurrent w) (DesiredLRPSchemaPath (updatedLRP lrp update))
      (.encoded (updatedLRP lrp update)) index = (.ok node, w1))
    (hret : UpdateDesiredLRP w concurrent processGuid update = some (e, w2)) :
    e = none ∧ w2.desired = w1.desired := by
  rw [UpdateDesiredLRP_of_get w concurrent processGuid update lrp index hget, hcas] at hret
  simp only at hret
  split at hret
  · split at hret
    · cases hret
    · rename_i w3 hstart
      simp only [Option.some.injEq, Prod.mk.injEq] at hret
      obtain ⟨he, hw⟩ := hret
      subst hw
      exact ⟨he.symm, startInstanceRange_desired _ _ _ _ _ hstart⟩
  · split at hret
    · simp only [Option.some.injEq, Prod.mk.injEq] at hret
      obtain ⟨he, hw⟩ := hret
      subst hw
      exact ⟨he.symm, stopInstanceRange_desired _ _ _ _⟩
    · simp only [Option.some.injEq, Prod.mk.injEq] at hret
      obtain ⟨he, hw⟩ := hret
      subst hw
      exact ⟨he.symm, rfl⟩

theorem DesireLRP_after_write (w w2 : World) (d : DesiredLRP) (epoch : String)
    (rest : List (Option String)) (e : Option ErrorType)
    (hfresh : fetchRaw w (DesiredLRPSchemaPathByProcessGuid d.ProcessGuid)
      = .error .ResourceNotFound)
    (hentropy : w.entropy = some epoch :: rest)
    (hret : DesireLRP w d = some (e, w2)) :
    e = none ∧ w2.desired = (afterCreate w d epoch rest).desired := by
  rw [DesireLRP_of_fresh w d epoch rest hfresh hentropy] at hret
  split at hret
  · cases hret
  · rename_i w3 hstart
    simp only [Option.some.injEq, Prod.mk.injEq] at hret
    obtain ⟨he, hw⟩ := hret
    subst hw
    exact ⟨he.symm, startInstanceRange_desired _ _ _ _ _ hstart⟩

theorem startInstanceRange_keys_negative (lower upper : Int) (desiredLRP : DesiredLRP)
    (hlt : upper < lower) (hfit : IsInt32 (upper - lower)) :
    startInstanceRange.keys lower upper desiredLRP = none := by
  unfold startInstanceRange.keys
  simp only [wrapInt32_of_isInt32 _ hfit]
  rw [if_pos (by omega)]

theorem startInstanceRange_keys_wrapped (lower upper : Int) (desiredLRP : DesiredLRP)
    (hl : IsInt32 lower) (hu : IsInt32 upper)
    (hlt : upper < lower) (hfit : ¬ IsInt32 (upper - lower)) :
    startInstanceRange.keys lower upper desiredLRP
      = some (List.replicate (upper - lower + 4294967296).toNat none) ∧
    0 < upper - lower + 4294967296 := by
  unfold IsInt32 at hl hu hfit
  have hwrap : wrapInt32 (upper - lower) = upper - lower + 4294967296 := by
    unfold wrapInt32
    omega
  have hrange : intRange lower upper = [] := by
    unfold intRange
    have : (upper - lower).toNat = 0 := by omega
    rw [this]
    rfl
  refine ⟨?_, by omega⟩
  unfold startInstanceRange.keys
  simp only [hwrap, hrange, List.foldl_nil, Option.map_some']
  rw [if_neg (by omega)]

theorem rangeKeys_getElem? (lower upper : Int) (desiredLRP : DesiredLRP) (j : Nat)
    (hj : j < (upper - lower).toNat) :
    ((rangeKeys lower upper desiredLRP).map some)[j]?
      = some (some (NewActualLRPKey desiredLRP.ProcessGuid (lower + (j : Int))
          desiredLRP.Domain)) := by
  simp only [rangeKeys, intRange, List.map_map, List.getElem?_map, List.getElem?_range hj,
    Option.map_some', Function.comp_apply]

theorem startInstanceRange_panics_of_keys (w : World) (lower upper : Int)
    (desiredLRP : DesiredLRP) (h : startInstanceRange.keys lower upper desiredLRP = none) :
    startInstanceRange w lower upper desiredLRP = none := by
  simp only [startInstanceRange, h]

theorem derefKeys_replicate_none (n : Nat) (hn : 0 < n) :
    derefKeys (List.replicate n none) = none := by
  obtain ⟨m, rfl⟩ : ∃ m, n = m + 1 := ⟨n - 1, by omega⟩
  rfl

theorem startInstanceRange_panics_of_nil_keys (w : World) (lower upper : Int)
    (desiredLRP : DesiredLRP) (n : Nat) (hn : 0 < n)
    (h : startInstanceRange.keys lower upper desiredLRP = some (List.replicate n none)) :
    startInstanceRange w lower upper desiredLRP = none := by
  simp only [startInstanceRange, h, createUnclaimedActualLRPs, derefKeys_replicate_none n hn]

theorem sliceValidationError_lawful : sliceValidationError.Lawful where
  empty_zero := rfl
  append_field := by
    intro ve field
    simp [sliceValidationError]
  append_nested := by
    intro ve inner hinner
    cases inner with
    | nil => simp [sliceValidationError] at hinner
    | cons a rest => simp [sliceValidationError]

theorem CellCapacity_Validate_eq {VE : Type} (ops : ValidationErrorOps VE)
    (hlaw : ops.Lawful) (cap : CellCapacity) :
    cap.Validate ops =
      if capacityViolations cap = [] then none
      else some (.ValidationError
        ((capacityViolations cap).foldl
          (fun ve field => ops.Append ve (.ErrInvalidField field)) ops.zero)) := by
  unfold CellCapacity.Validate capacityViolations
  by_cases h1 : cap.MemoryMb ≤ 0 <;> by_cases h2 : cap.DiskMb < 0 <;>
    by_cases h3 : cap.Containers ≤ 0 <;>
    simp [h1, h2, h3, hlaw.empty_zero, hlaw.append_field]

theorem capacityViolations_eq_nil (cap : CellCapacity) :
    capacityViolations cap = [] ↔ 0 < cap.MemoryMb ∧ 0 ≤ cap.DiskMb ∧ 0 < cap.Containers := by
  unfold capacityViolations
  by_cases h1 : cap.MemoryMb ≤ 0 <;> by_cases h2 : cap.DiskMb < 0 <;>
    by_cases h3 : cap.Containers ≤ 0 <;>
    (simp [h1, h2, h3]; try omega)

theorem CellCapacity_Validate_nonempty {VE : Type} (ops : ValidationErrorOps VE)
    (cap : CellCapacity) (err : GoError VE) (h : cap.Validate ops = some err) :
    ∃ ve, err = .ValidationError ve ∧ ops.Empty ve = false := by
  dsimp only [CellCapacity.Validate] at h
  rw [Option.ite_none_right_eq_some] at h
  exact ⟨_, (Option.some.inj h.2).symm, by simpa using h.1⟩

theorem CellSet_find?_filter_ne (set : CellSet) (key cellID : String) (h : ¬ key = cellID) :
    (set.filter (fun entry => ¬ entry.1 = key)).find? (fun entry => entry.1 = cellID)
      = set.find? (fun entry => entry.1 = cellID) := by
  rw [List.find?_filter]
  congr 1
  funext entry
  by_cases hc : entry.1 = cellID
  · have hk : ¬ entry.1 = key := fun hk => h (hk.symm.trans hc)
    simp [hc, hk]
    intro hkey
    exact h (hkey.symm ▸ rfl)
  · simp [hc]

theorem CellSet_get_put (set : CellSet) (key : String) (cell : CellPresence) (cellID : String) :
    CellSet.get (CellSet.put set key cell) cellID
      = if key = cellID then some cell else CellSet.get set cellID := by
  unfold CellSet.get CellSet.put
  by_cases h : key = cellID
  · simp [List.find?_cons, h]
  · simp only [List.find?_cons, h, decide_False, if_false]
    rw [CellSet_find?_filter_ne set key cellID h]

theorem CellSet_keys_put (set : CellSet) (key : String) (cell : CellPresence)
    (hnodup : (set.map Prod.fst).Nodup) :
    ((CellSet.put set key cell).map Prod.fst).Nodup ∧
    ∀ cellID, cellID ∈ (CellSet.put set key cell).map Prod.fst ↔
      cellID = key ∨ cellID ∈ set.map Prod.fst := by
  unfold CellSet.put
  constructor
  · simp only [List.map_cons, List.nodup_cons]
    constructor
    · simp [List.mem_map, List.mem_filter]
    · exact (hnodup.sublist ((List.filter_sublist set).map Prod.fst))
  · intro cellID
    simp only [List.map_cons, List.mem_cons, List.mem_map, List.mem_filter, decide_eq_true_eq,
      decide_not, Bool.not_eq_true']
    constructor
    · rintro (h | ⟨e, ⟨he, _⟩, rfl⟩)
      · exact Or.inl h
      · exact Or.inr ⟨e, he, rfl⟩
    · rintro (h | ⟨e, he, rfl⟩)
      · exact Or.inl h
      · by_cases hk : e.1 = key
        · exact Or.inl hk
        · exact Or.inr ⟨e, ⟨he, by simpa using hk⟩, rfl⟩

theorem NewCellSetFromList_foldl (cells : List CellPresence) (set : CellSet) :
    (cells.map some).foldl
        (fun (cellSet : Option CellSet) v =>
          match cellSet with
          | none => none
          | some set => set.Add v)
        (some set)
      = some (cells.foldl (fun set c => CellSet.put set c.CellId c) set) := by
  induction cells generalizing set with
  | nil => rfl
  | cons c rest ih =>
    simp only [List.map_cons, List.foldl_cons, CellSet.Add]
    exact ih _

theorem NewCellSetFromList_some (cells : List CellPresence) :
    NewCellSetFromList (cells.map some) = some (cellSetOf cells) :=
  NewCellSetFromList_foldl cells NewCellSet

theorem cellSetOf_append (cells : List CellPresence) (c : CellPresence) :
    cellSetOf (cells ++ [c]) = CellSet.put (cellSetOf cells) c.CellId c := by
  simp [cellSetOf, List.foldl_append]

theorem cellSetOf_get (cells : List CellPresence) (cellID : String) :
    CellSet.get (cellSetOf cells) cellID
      = (cells.filter (fun c => c.CellId = cellID)).getLast? := by
  induction cells using List.reverseRecOn with
  | nil => rfl
  | append_singleton cells c ih =>
    rw [cellSetOf_append, CellSet_get_put, List.filter_append]
    by_cases h : c.CellId = cellID
    · simp [h, List.getLast?_append]
    · simp [h, ih]

theorem cellSetOf_keys (cells : List CellPresence) :
    ((cellSetOf cells).map Prod.fst).Nodup ∧
    ∀ cellID, cellID ∈ (cellSetOf cells).map Prod.fst ↔ ∃ c ∈ cells, c.CellId = cellID := by
  induction cells using List.reverseRecOn with
  | nil => simp [cellSetOf, NewCellSet]
  | append_singleton cells c ih =>
    rw [cellSetOf_append]
    obtain ⟨hnodup, hmem⟩ := CellSet_keys_put (cellSetOf cells) c.CellId c ih.1
    refine ⟨hnodup, fun cellID => ?_⟩
    rw [hmem, ih.2]
    simp only [List.mem_append, List.mem_singleton]
    constructor
    · rintro (h | ⟨x, hx, hid⟩)
      · exact ⟨c, Or.inr rfl, h.symm⟩
      · exact ⟨x, Or.inl hx, hid⟩
    · rintro ⟨x, hx | hx, hid⟩
      · exact Or.inr ⟨x, hx, hid⟩
      · subst hx
        exact Or.inl hid.symm

theorem NewCellSetFromList_nil_cell (cells : List (Option CellPresence))
    (h : none ∈ cells) (start : Option CellSet) :
    cells.foldl
        (fun (cellSet : Option CellSet) v =>
          match cellSet with
          | none => none
          | some set => set.Add v)
        start = none := by
  induction cells generalizing start with
  | nil => cases h
  | cons v rest ih =>
    simp only [List.foldl_cons]
    rcases List.mem_cons.mp h with hv | hrest
    · subst hv
      have hnone : (match start with
          | none => (none : Option CellSet)
          | some set => set.Add none) = none := by
        cases start <;> rfl
      rw [hnone]
      clear ih h
      induction rest with
      | nil => rfl
      | cons v2 rest2 ih2 => simpa only [List.foldl_cons] using ih2
    · exact ih hrest _

theorem TaskStore_find_guid (s : TaskStore) (taskGuid : String) (t : Task)
    (h : s.find taskGuid = some t) : t.TaskGuid = taskGuid := by
  have := List.find?_some h
  simpa using this

theorem find?_task_replace (tasks : List Task) (task : Task) (taskGuid : String) :
    (tasks.map (fun t => if t.TaskGuid = task.TaskGuid then task else t)).find?
        (fun t => t.TaskGuid = taskGuid)
      = if task.TaskGuid = taskGuid then
          (tasks.find? (fun t => t.TaskGuid = taskGuid)).map (fun _ => task)
        else tasks.find? (fun t => t.TaskGuid = taskGuid) := by
  induction tasks with
  | nil => simp
  | cons u rest ih =>
    by_cases hu : u.TaskGuid = task.TaskGuid
    · simp only [List.map_cons, if_pos hu, List.find?_cons]
      by_cases hk : task.TaskGuid = taskGuid
      · have hug : u.TaskGuid = taskGuid := hu.trans hk
        simp only [hk, hug, decide_True, if_true, Option.map_some']
      · have hug : ¬ u.TaskGuid = taskGuid := fun h => hk (hu.symm.trans h)
        simp only [hk, hug, decide_False, if_false]
        rw [ih]
        simp only [hk, if_false]
    · simp only [List.map_cons, if_neg hu, List.find?_cons]
      by_cases hg : u.TaskGuid = taskGuid
      · have hk : ¬ task.TaskGuid = taskGuid := fun h => hu (hg.trans h.symm)
        simp only [hg, decide_True, hk, if_false]
      · simp only [hg, decide_False]
        exact ih

theorem TaskStore_find_write (s : TaskStore) (task : Task) (taskGuid : String) :
    (s.write task).find taskGuid
      = if task.TaskGuid = taskGuid then (s.find taskGuid).map (fun _ => task)
        else s.find taskGuid := by
  simp only [TaskStore.find, TaskStore.write]
  exact find?_task_replace s.tasks task taskGuid

theorem observe_write (s : TaskStore) (t task : Task) (key taskGuid : String)
    (hfind : s.find key = some t) (hguid : task.TaskGuid = key) :
    observe (s.write task) taskGuid
      = if key = taskGuid then some task.State else observe s taskGuid := by
  unfold observe
  rw [TaskStore_find_write, hguid]
  by_cases h : key = taskGuid
  · subst h
    simp [hfind]
  · simp [h]

theorem find?_task_delete (tasks : List Task) (key taskGuid : String) :
    (tasks.filter (fun u => ¬ u.TaskGuid = key)).find? (fun t => t.TaskGuid = taskGuid)
      = if key = taskGuid then none else tasks.find? (fun t => t.TaskGuid = taskGuid) := by
  rw [List.find?_filter]
  by_cases h : key = taskGuid
  · subst h
    simp only [if_true]
    rw [List.find?_eq_none]
    intro u _
    by_cases hu : u.TaskGuid = key <;> simp [hu]
  · simp only [h, if_false]
    congr 1
    funext u
    by_cases hu : u.TaskGuid = taskGuid
    · have hk : ¬ u.TaskGuid = key := fun hk => h (hk.symm.trans hu)
      simp [hu]
      intro hkey
      exact h (hkey.symm ▸ rfl)
    · simp [hu]

theorem ObservedStep_refl (a : Option TaskState) : ObservedStep a a :=
  ⟨fun _ => le_refl _, fun h => Or.inl h⟩

theorem ObservedStep_of_ite (a b : Option TaskState) (key taskGuid : String)
    (h : key = taskGuid → ObservedStep a b) :
    ObservedStep a (if key = taskGuid then b else a) := by
  by_cases hk : key = taskGuid
  · simp only [hk, if_true]
    exact h hk
  · simp only [hk, if_false]
    exact ObservedStep_refl a

theorem observe_of_find (s : TaskStore) (taskGuid : String) (t : Task)
    (h : s.find taskGuid = some t) : observe s taskGuid = some t.State := by
  simp [observe, h]

theorem ObservedStep_forward (a : TaskState) (b : Option TaskState)
    (h : stateRank (some a) ≤ stateRank b) : ObservedStep (some a) b :=
  ⟨fun _ => h, fun hnone => by cases hnone⟩

theorem observe_step_write (s : TaskStore) (t task : Task) (key taskGuid : String)
    (hfind : s.find key = some t) (hguid : task.TaskGuid = key)
    (hrank : stateRank (some t.State) ≤ stateRank (some task.State)) :
    ObservedStep (observe s taskGuid) (observe (s.write task) taskGuid) := by
  rw [observe_write s t task key taskGuid hfind hguid]
  apply ObservedStep_of_ite
  intro hk
  subst hk
  rw [observe_of_find s key t hfind]
  exact ObservedStep_forward _ _ hrank

theorem StartTask_step (s : TaskStore) (key cellId taskGuid : String) :
    ObservedStep (observe s taskGuid) (observe (StartTask s key cellId).2 taskGuid) := by
  cases hfind : s.find key with
  | none =>
    simp only [StartTask, hfind]
    exact ObservedStep_refl _
  | some t =>
    have hguid := TaskStore_find_guid s key t hfind
    cases hstate : t.State with
    | Pending =>
      simp only [StartTask, hfind, hstate]
      exact observe_step_write s t _ key taskGuid hfind hguid (by rw [hstate]; simp [stateRank, Task.failed])
    | Running =>
      simp only [StartTask, hfind, hstate]
      split <;> exact ObservedStep_refl _
    | Completed =>
      simp only [StartTask, hfind, hstate]
      exact ObservedStep_refl _
    | Resolving =>
      simp only [StartTask, hfind, hstate]
      exact ObservedStep_refl _

theorem CancelTask_step (s : TaskStore) (key taskGuid : String) :
    ObservedStep (observe s taskGuid) (observe (CancelTask s key).2 taskGuid) := by
  cases hfind : s.find key with
  | none =>
    simp only [CancelTask, hfind]
    exact ObservedStep_refl _
  | some t =>
    have hguid := TaskStore_find_guid s key t hfind
    cases hstate : t.State with
    | Pending =>
      simp only [CancelTask, hfind, hstate]
      exact observe_step_write s t _ key taskGuid hfind hguid (by rw [hstate]; simp [stateRank, Task.failed])
    | Running =>
      simp only [CancelTask, hfind, hstate]
      exact observe_step_write s t _ key taskGuid hfind hguid (by rw [hstate]; simp [stateRank, Task.failed])
    | Completed =>
      simp only [CancelTask, hfind, hstate]
      exact ObservedStep_refl _
    | Resolving =>
      simp only [CancelTask, hfind, hstate]
      exact ObservedStep_refl _

theorem FailTask_step (s : TaskStore) (key reason taskGuid : String) :
    ObservedStep (observe s taskGuid) (observe (FailTask s key reason).2 taskGuid) := by
  cases hfind : s.find key with
  | none =>
    simp only [FailTask, hfind]
    exact ObservedStep_refl _
  | some t =>
    have hguid := TaskStore_find_guid s key t hfind
    cases hstate : t.State with
    | Pending =>
      simp only [FailTask, hfind, hstate]
      exact observe_step_write s t _ key taskGuid hfind hguid (by rw [hstate]; simp [stateRank, Task.failed])
    | Running =>
      simp only [FailTask, hfind, hstate]
      exact observe_step_write s t _ key taskGuid hfind hguid (by rw [hstate]; simp [stateRank, Task.failed])
    | Completed =>
      simp only [FailTask, hfind, hstate]
      exact ObservedStep_refl _
    | Resolving =>
      simp only [FailTask, hfind, hstate]
      exact ObservedStep_refl _

theorem CompleteTask_step (s : TaskStore) (key cellId : String) (failed : Bool)
    (reason result taskGuid : String) :
    ObservedStep (observe s taskGuid)
      (observe (CompleteTask s key cellId failed reason result).2 taskGuid) := by
  cases hfind : s.find key with
  | none =>
    simp only [CompleteTask, hfind]
    exact ObservedStep_refl _
  | some t =>
    have hguid := TaskStore_find_guid s key t hfind
    cases hstate : t.State with
    | Running =>
      simp only [CompleteTask, hfind, hstate]
      split
      · exact observe_step_write s t _ key taskGuid hfind hguid (by rw [hstate]; simp [stateRank, Task.failed])
      · exact ObservedStep_refl _
    | Pending =>
      simp only [CompleteTask, hfind, hstate]
      exact ObservedStep_refl _
    | Completed =>
      simp only [CompleteTask, hfind, hstate]
      exact ObservedStep_refl _
    | Resolving =>
      simp only [CompleteTask, hfind, hstate]
      exact ObservedStep_refl _

theorem ResolvingTask_step (s : TaskStore) (key taskGuid : String) :
    ObservedStep (observe s taskGuid) (observe (ResolvingTask s key).2 taskGuid) := by
  cases hfind : s.find key with
  | none =>
    simp only [ResolvingTask, hfind]
    exact ObservedStep_refl _
  | some t =>
    have hguid := TaskStore_find_guid s key t hfind
    cases hstate : t.State with
    | Completed =>
      simp only [ResolvingTask, hfind, hstate]
      exact observe_step_write s t _ key taskGuid hfind hguid (by rw [hstate]; simp [stateRank, Task.failed])
    | Pending =>
      simp only [ResolvingTask, hfind, hstate]
      exact ObservedStep_refl _
    | Running =>
      simp only [ResolvingTask, hfind, hstate]
      exact ObservedStep_refl _
    | Resolving =>
      simp only [ResolvingTask, hfind, hstate]
      exact ObservedStep_refl _

theorem observe_delete (s : TaskStore) (key taskGuid : String) :
    observe
        { s with
          tasks := s.tasks.filter (fun u => ¬ u.TaskGuid = key),
          clock := s.clock + 1 } taskGuid
      = if key = taskGuid then none else observe s taskGuid := by
  simp only [observe, TaskStore.find]
  rw [find?_task_delete]
  by_cases h : key = taskGuid <;> simp [h]

theorem DeleteTask_step (s : TaskStore) (key taskGuid : String) :
    ObservedStep (observe s taskGuid) (observe (DeleteTask s key).2 taskGuid) := by
  cases hfind : s.find key with
  | none =>
    simp only [DeleteTask, hfind]
    exact ObservedStep_refl _
  | some t =>
    cases hstate : t.State with
    | Resolving =>
      simp only [DeleteTask, hfind, hstate]
      rw [observe_delete]
      apply ObservedStep_of_ite
      intro hk
      subst hk
      rw [observe_of_find s key t hfind, hstate]
      exact ObservedStep_forward _ _ (by decide)
    | Pending =>
      simp only [DeleteTask, hfind, hstate]
      exact ObservedStep_refl _
    | Running =>
      simp only [DeleteTask, hfind, hstate]
      exact ObservedStep_refl _
    | Completed =>
      simp only [DeleteTask, hfind, hstate]
      exact ObservedStep_refl _

theorem observe_create (s : TaskStore) (task : Task) (taskGuid : String)
    (hnone : s.find task.TaskGuid = none) :
    observe { s with tasks := s.tasks ++ [task], clock := s.clock + 1 } taskGuid
      = if task.TaskGuid = taskGuid then some task.State else observe s taskGuid := by
  simp only [observe, TaskStore.find, List.find?_append]
  by_cases h : task.TaskGuid = taskGuid
  · subst h
    simp only [TaskStore.find] at hnone
    simp [hnone]
  · cases hf : s.tasks.find? (fun t => t.TaskGuid = taskGuid) <;> simp [h]

theorem DesireTask_step (valid : TaskDefinition → Bool) (s : TaskStore)
    (key domain : String) (definition : TaskDefinition) (taskGuid : String) :
    ObservedStep (observe s taskGuid)
      (observe (DesireTask valid s key domain definition).2 taskGuid) := by
  unfold DesireTask
  split
  · exact ObservedStep_refl _
  · cases hfind : s.find key with
    | some t => exact ObservedStep_refl _
    | none =>
      simp only
      rw [observe_create s _ taskGuid hfind]
      apply ObservedStep_of_ite
      intro hk
      simp only at hk
      subst hk
      have : observe s key = none := by simp [observe, hfind]
      rw [this]
      exact ⟨fun h => absurd rfl h, fun _ => Or.inr rfl⟩

theorem TaskOp_apply_step (valid : TaskDefinition → Bool) (op : TaskOp) (s : TaskStore)
    (taskGuid : String) :
    ObservedStep (observe s taskGuid) (observe (op.apply valid s) taskGuid) := by
  cases op with
  | desire key domain definition => exact DesireTask_step valid s key domain definition taskGuid
  | start key cellId => exact StartTask_step s key cellId taskGuid
  | cancel key => exact CancelTask_step s key taskGuid
  | fail key reason => exact FailTask_step s key reason taskGuid
  | complete key cellId failed reason result =>
    exact CompleteTask_step s key cellId failed reason result taskGuid
  | resolving key => exact ResolvingTask_step s key taskGuid
  | delete key => exact DeleteTask_step s key taskGuid

theorem observations_chain (valid : TaskDefinition → Bool) (taskGuid : String)
    (ops : List TaskOp) (s : TaskStore) :
    List.Chain ObservedStep (observe s taskGuid) (observations valid taskGuid ops s) := by
  induction ops generalizing s with
  | nil => exact List.Chain.nil
  | cons op rest ih =>
    exact List.Chain.cons (TaskOp_apply_step valid op s taskGuid) (ih _)

theorem observe_eq_none (s : TaskStore) (taskGuid : String) :
    observe s taskGuid = none ↔ s.find taskGuid = none := by
  simp only [observe, Option.map_eq_none']

theorem observe_write_absent (s : TaskStore) (task : Task) (taskGuid : String)
    (h : observe s taskGuid = none) : observe (s.write task) taskGuid = none := by
  rw [observe_eq_none] at h ⊢
  rw [TaskStore_find_write, h]
  split <;> rfl

theorem observe_delete_absent (s : TaskStore) (key taskGuid : String)
    (h : observe s taskGuid = none) :
    observe
        { s with
          tasks := s.tasks.filter (fun u => ¬ u.TaskGuid = key),
          clock := s.clock + 1 } taskGuid = none := by
  rw [observe_delete]
  split
  · rfl
  · exact h

theorem observe_absent_of_apply (valid : TaskDefinition → Bool) (op : TaskOp) (s : TaskStore)
    (taskGuid : String) (hop : op.desires taskGuid = false)
    (hnone : observe s taskGuid = none) :
    observe (op.apply valid s) taskGuid = none := by
  cases op with
  | desire key domain definition =>
    have hkey : ¬ key = taskGuid := by simpa [TaskOp.desires] using hop
    simp only [TaskOp.apply, DesireTask]
    split
    · exact hnone
    · cases hfind : s.find key with
      | some t => exact hnone
      | none =>
        simp only
        rw [observe_create s _ taskGuid hfind]
        simp only [hkey, if_false]
        exact hnone
  | start key cellId =>
    cases hfind : s.find key with
    | none =>
      simp only [TaskOp.apply, StartTask, hfind]
      exact hnone
    | some t =>
      cases hstate : t.State with
      | Pending =>
        simp only [TaskOp.apply, StartTask, hfind, hstate]
        exact observe_write_absent s _ taskGuid hnone
      | Running =>
        simp only [TaskOp.apply, StartTask, hfind, hstate]
        split <;> exact hnone
      | Completed =>
        simp only [TaskOp.apply, StartTask, hfind, hstate]
        exact hnone
      | Resolving =>
        simp only [TaskOp.apply, StartTask, hfind, hstate]
        exact hnone
  | cancel key =>
    cases hfind : s.find key with
    | none =>
      simp only [TaskOp.apply, CancelTask, hfind]
      exact hnone
    | some t =>
      cases hstate : t.State with
      | Pending =>
        simp only [TaskOp.apply, CancelTask, hfind, hstate]
        exact observe_write_absent s _ taskGuid hnone
      | Running =>
        simp only [TaskOp.apply, CancelTask, hfind, hstate]
        exact observe_write_absent s _ taskGuid hnone
      | Completed =>
        simp only [TaskOp.apply, CancelTask, hfind, hstate]
        exact hnone
      | Resolving =>
        simp only [TaskOp.apply, CancelTask, hfind, hstate]
        exact hnone
  | fail key reason =>
    cases hfind : s.find key with
    | none =>
      simp only [TaskOp.apply, FailTask, hfind]
      exact hnone
    | some t =>
      cases hstate : t.State with
      | Pending =>
        simp only [TaskOp.apply, FailTask, hfind, hstate]
        exact observe_write_absent s _ taskGuid hnone
      | Running =>
        simp only [TaskOp.apply, FailTask, hfind, hstate]
        exact observe_write_absent s _ taskGuid hnone
      | Completed =>
        simp only [TaskOp.apply, FailTask, hfind, hstate]
        exact hnone
      | Resolving =>
        simp only [TaskOp.apply, FailTask, hfind, hstate]
        exact hnone
  | complete key cellId failed reason result =>
    cases hfind : s.find key with
    | none =>
      simp only [TaskOp.apply, CompleteTask, hfind]
      exact hnone
    | some t =>
      cases hstate : t.State with
      | Pending =>
        simp only [TaskOp.apply, CompleteTask, hfind, hstate]
        exact hnone
      | Running =>
        simp only [TaskOp.apply, CompleteTask, hfind, hstate]
        split
        · exact observe_write_absent s _ taskGuid hnone
        · exact hnone
      | Completed =>
        simp only [TaskOp.apply, CompleteTask, hfind, hstate]
        exact hnone
      | Resolving =>
        simp only [TaskOp.apply, CompleteTask, hfind, hstate]
        exact hnone
  | resolving key =>
    cases hfind : s.find key with
    | none =>
      simp only [TaskOp.apply, ResolvingTask, hfind]
      exact hnone
    | some t =>
      cases hstate : t.State with
      | Pending =>
        simp only [TaskOp.apply, ResolvingTask, hfind, hstate]
        exact hnone
      | Running =>
        simp only [TaskOp.apply, ResolvingTask, hfind, hstate]
        exact hnone
      | Completed =>
        simp only [TaskOp.apply, ResolvingTask, hfind, hstate]
        exact observe_write_absent s _ taskGuid hnone
      | Resolving =>
        simp only [TaskOp.apply, ResolvingTask, hfind, hstate]
        exact hnone
  | delete key =>
    cases hfind : s.find key with
    | none =>
      simp only [TaskOp.apply, DeleteTask, hfind]
      exact hnone
    | some t =>
      cases hstate : t.State with
      | Pending =>
        simp only [TaskOp.apply, DeleteTask, hfind, hstate]
        exact hnone
      | Running =>
        simp only [TaskOp.apply, DeleteTask, hfind, hstate]
        exact hnone
      | Completed =>
        simp only [TaskOp.apply, DeleteTask, hfind, hstate]
        exact hnone
      | Resolving =>
        simp only [TaskOp.apply, DeleteTask, hfind, hstate]
        exact observe_delete_absent s key taskGuid hnone

theorem stateRank_step (valid : TaskDefinition → Bool) (op : TaskOp) (s : TaskStore)
    (taskGuid : String) (h : op.desires taskGuid = true → observe s taskGuid ≠ none) :
    stateRank (observe s taskGuid) ≤ stateRank (observe (op.apply valid s) taskGuid) := by
  by_cases hobs : observe s taskGuid = none
  · have hop : op.desires taskGuid = false := by
      cases hd : op.desires taskGuid with
      | false => rfl
      | true => exact absurd hobs (h hd)
    rw [observe_absent_of_apply valid op s taskGuid hop hobs, hobs]
  · exact (TaskOp_apply_step valid op s taskGuid).1 hobs

theorem observations_forward (valid : TaskDefinition → Bool) (taskGuid : String)
    (ops : List TaskOp) (s : TaskStore) (h : GuidNotReused valid taskGuid ops s) :
    List.Chain (fun a b => stateRank a ≤ stateRank b) (observe s taskGuid)
      (observations valid taskGuid ops s) := by
  induction ops generalizing s with
  | nil => exact List.Chain.nil
  | cons op rest ih =>
    exact List.Chain.cons (stateRank_step valid op s taskGuid h.1) (ih _ h.2)

theorem stateRank_injective (a b : Option TaskState) (h : stateRank a = stateRank b) : a = b := by
  cases a with
  | none =>
    cases b with
    | none => rfl
    | some y => cases y <;> simp [stateRank] at h
  | some x =>
    cases b with
    | none => cases x <;> simp [stateRank] at h
    | some y => cases x <;> cases y <;> first | rfl | simp [stateRank] at h

theorem observations_pairwise (valid : TaskDefinition → Bool) (taskGuid : String)
    (ops : List TaskOp) (s : TaskStore) (h : GuidNotReused valid taskGuid ops s) :
    (observe s taskGuid :: observations valid taskGuid ops s).Pairwise
      (fun a b => stateRank a ≤ stateRank b) := by
  haveI : IsTrans (Option TaskState) (fun a b => stateRank a ≤ stateRank b) :=
    ⟨fun _ _ _ h1 h2 => le_trans h1 h2⟩
  exact List.chain_iff_pairwise.mp (observations_forward valid taskGuid ops s h)

theorem dedup_sublist_taskPath (obs : List (Option TaskState))
    (h : obs.Pairwise (fun a b => stateRank a ≤ stateRank b)) :
    List.Sublist (List.dedup obs) taskPath := by
  haveI : IsAntisymm (Option TaskState) (fun a b => stateRank a < stateRank b) :=
    ⟨fun _ _ h1 h2 => absurd h1 (Nat.lt_asymm h2)⟩
  have hle : (List.dedup obs).Pairwise (fun a b => stateRank a ≤ stateRank b) :=
    h.sublist (List.dedup_sublist obs)
  have hne : (List.dedup obs).Pairwise (fun a b => a ≠ b) := List.nodup_dedup obs
  have hlt : (List.dedup obs).Pairwise (fun a b => stateRank a < stateRank b) :=
    (hle.and hne).imp
      (fun hab => lt_of_le_of_ne hab.1 (fun heq => hab.2 (stateRank_injective _ _ heq)))
  have hpath : taskPath.Pairwise (fun a b => stateRank a < stateRank b) := by
    simp [taskPath, stateRank]
  have hsub : List.Subperm (List.dedup obs) taskPath := by
    apply List.subperm_of_subset (List.nodup_dedup obs)
    intro a _
    cases a with
    | none => simp [taskPath]
    | some x => cases x <;> simp [taskPath]
  exact List.sublist_of_subperm_of_sorted hsub hlt hpath

/-! ## Theorems -/

/-- C1: when every stored record decodes, `DesiredLRPs` returns no error and a
list that is, up to order, the decoded records whose `Domain` equals the
filter's (for a non-empty filter domain), and all the decoded records (for the
empty filter domain), whatever the order in which the pool runs the works. -/
theorem DesiredLRPs_returns_filtered_records (w : World) (ns : List Node)
    (schedule : List Nat) (filter : DesiredLRPFilter)
    (hstore : w.desired = some ns)
    (hdec : ∀ n ∈ ns, ∃ lrp, deserializeModel n = .ok lrp)
    (hsched : IsSchedule schedule ns.length) :
    ∃ out, DesiredLRPs w schedule filter = (out, none) ∧
      (filter.Domain ≠ "" →
        out.Perm ((decodedRecords ns).filter (fun lrp => lrp.Domain = filter.Domain))) ∧
      (filter.Domain = "" → out.Perm (decodedRecords ns)) ∧
      (decodedRecords ns).length = ns.length := by
  have hlen : (decodedRecords ns).length = ns.length := by
    clear hstore hsched
    induction ns with
    | nil => rfl
    | cons n rest ih =>
      obtain ⟨lrp, hl⟩ := hdec n (List.mem_cons_self _ _)
      have := ih (fun m hm => hdec m (List.mem_cons_of_mem _ hm))
      simp only [decodedRecords, List.filterMap_cons, hl, List.length_cons] at this ⊢
      omega
  by_cases hne : ns.length = 0
  · have hnil : ns = [] := List.length_eq_zero.mp hne
    subst hnil
    refine ⟨[], ?_, ?_, ?_, hlen⟩
    · simp [DesiredLRPs, fetchRecursiveRaw, hstore]
    · intro _; simp [decodedRecords]
    · intro _; simp [decodedRecords]
  · let sn := schedule.filterMap (fun i => ns[i]?)
    have hperm : sn.Perm ns := scheduled_perm ns schedule hsched
    have hsdec : ∀ n ∈ sn, ∃ lrp, deserializeModel n = .ok lrp :=
      fun n hn => hdec n (hperm.subset hn)
    have hdperm : (decodedRecords sn).Perm (decodedRecords ns) :=
      List.Perm.filterMap _ hperm
    refine ⟨(decodedRecords sn).filter
      (fun lrp => decide (filter.Domain = "" ∨ lrp.Domain = filter.Domain)), ?_, ?_, ?_, hlen⟩
    · have h50 : ¬ ((50 : Int) < 1) := by decide
      simp only [DesiredLRPs, fetchRecursiveRaw, hstore, if_true, hne, if_false, NewThrottler,
        maxDesiredLRPGetterWorkPoolSize, Throttler.Work, h50]
      rw [scheduled_map, foldl_works_decodable filter _ hsdec]
      simp
    · intro hd
      have : (fun lrp : DesiredLRP => decide (filter.Domain = "" ∨ lrp.Domain = filter.Domain))
          = (fun lrp => decide (lrp.Domain = filter.Domain)) := by
        funext lrp; simp [hd]
      rw [this]
      exact hdperm.filter _
    · intro hd
      have : (fun lrp : DesiredLRP => decide (filter.Domain = "" ∨ lrp.Domain = filter.Domain))
          = (fun _ => true) := by
        funext lrp; simp [hd]
      rw [this, List.filter_true]
      exact hdperm

/-- C1 at a concrete store: two records of the domains `a` and `b`, the works
completing in the reverse order, the filter domain `a`. -/
theorem DesiredLRPs_returns_filtered_records_witness :
    ∃ out, DesiredLRPs twoWorld [1, 0] { Domain := "a" } = (out, none) ∧
      (("a" : String) ≠ "" →
        out.Perm ((decodedRecords twoNodes).filter (fun lrp => lrp.Domain = "a"))) ∧
      (("a" : String) = "" → out.Perm (decodedRecords twoNodes)) ∧
      (decodedRecords twoNodes).length = twoNodes.length :=
  DesiredLRPs_returns_filtered_records twoWorld twoNodes [1, 0] { Domain := "a" } rfl
    (by
      intro n hn
      simp only [twoNodes, List.mem_cons, List.mem_singleton, List.not_mem_nil, or_false] at hn
      rcases hn with rfl | rfl <;> exact ⟨_, rfl⟩)
    (by unfold IsSchedule; decide)

/-- C6: when at least one stored record fails to decode, `DesiredLRPs` returns
`UnknownError` together with an empty list, for every filter (also one whose
domain excludes the undecodable record) and every order of the works. -/
theorem DesiredLRPs_decode_error_collapses (w : World) (ns : List Node)
    (schedule : List Nat) (filter : DesiredLRPFilter)
    (hstore : w.desired = some ns)
    (hbad : ∃ n ∈ ns, ∃ e, deserializeModel n = .error e)
    (hsched : IsSchedule schedule ns.length) :
    DesiredLRPs w schedule filter = ([], some .UnknownError) := by
  have hne : ¬ ns.length = 0 := by
    obtain ⟨n, hn, _⟩ := hbad
    intro h0
    rw [List.length_eq_zero.mp h0] at hn
    exact List.not_mem_nil _ hn
  have hperm : (schedule.filterMap (fun i => ns[i]?)).Perm ns := scheduled_perm ns schedule hsched
  have hsbad : ∃ n ∈ schedule.filterMap (fun i => ns[i]?), ∃ e, deserializeModel n = .error e := by
    obtain ⟨n, hn, he⟩ := hbad
    exact ⟨n, hperm.symm.subset hn, he⟩
  have hsome := foldl_works_undecodable filter _ { desiredLRPs := [], workErr := none } hsbad
  have h50 : ¬ ((50 : Int) < 1) := by decide
  simp only [DesiredLRPs, fetchRecursiveRaw, hstore, if_true, hne, if_false, NewThrottler,
    maxDesiredLRPGetterWorkPoolSize, Throttler.Work, h50]
  rw [scheduled_map]
  obtain ⟨msg, hmsg⟩ := Option.isSome_iff_exists.mp hsome
  simp only [hmsg]

/-- C6 at a concrete store: the second record does not parse and the filter asks
for the domain of the first. -/
theorem DesiredLRPs_decode_error_collapses_witness :
    DesiredLRPs { emptyWorld with desired := some brokenNodes } [0, 1] { Domain := "a" }
      = ([], some .UnknownError) :=
  DesiredLRPs_decode_error_collapses { emptyWorld with desired := some brokenNodes } brokenNodes
    [0, 1] { Domain := "a" } rfl
    ⟨{ Key := "/v1/desired/q", Value := .unparsable "\x7bbroken", ModifiedIndex := 2 },
      by simp [brokenNodes], .InvalidRecord, rfl⟩
    (by unfold IsSchedule; decide)

/-- C2: an `UpdateDesiredLRP` whose `Get` and `CompareAndSwap` both succeed, with
the stored and the new `Instances` non-negative `int32` values, returns nil and
opens exactly one start range, for the indices `[old, new)`, when `new > old`;
exactly one stop range, for the indices `[new, old)`, when `new < old`; and
neither when `new = old` (`w1` is the state right after the write). -/
theorem UpdateDesiredLRP_placement (w : World) (concurrent : World → World)
    (processGuid : String) (update : DesiredLRPUpdate) (lrp : DesiredLRP) (index : Nat)
    (node : Node) (w1 : World)
    (hget : rawDesiredLRPByProcessGuid w processGuid = .ok (lrp, index))
    (hcas : client.CompareAndSwap (concurrent w) (DesiredLRPSchemaPath (updatedLRP lrp update))
      (.encoded (updatedLRP lrp update)) index = (.ok node, w1))
    (hold : 0 ≤ lrp.Instances ∧ IsInt32 lrp.Instances)
    (hnew : 0 ≤ (updatedLRP lrp update).Instances ∧ IsInt32 (updatedLRP lrp update).Instances) :
    ∃ w2, UpdateDesiredLRP w concurrent processGuid update = some (none, w2) ∧
      (lrp.Instances < (updatedLRP lrp update).Instances →
        w2.events = w1.events ++
          [ .startRange lrp.Instances (updatedLRP lrp update).Instances,
            .createUnclaimed
              ((rangeKeys lrp.Instances (updatedLRP lrp update).Instances
                (updatedLRP lrp update)).map some),
            .requestAuctions
              [ { DesiredLRP := updatedLRP lrp update,
                  Indices := (missingKeys w1 lrp.Instances (updatedLRP lrp update).Instances
                    (updatedLRP lrp update)).map (fun key => key.Index) } ] ]) ∧
      ((updatedLRP lrp update).Instances < lrp.Instances →
        w2.events = w1.events ++
          .stopRange (updatedLRP lrp update).Instances lrp.Instances ::
            (match w1.actualLookupErr with
              | some _ => []
              | none =>
                [ .retire (storedKeys w1 (updatedLRP lrp update).Instances lrp.Instances
                    (updatedLRP lrp update).ProcessGuid) ])) ∧
      ((updatedLRP lrp update).Instances = lrp.Instances → w2 = w1) := by
  have hupd := UpdateDesiredLRP_eq w concurrent processGuid update lrp index node w1 hget hcas
    hold hnew
  refine ⟨_, hupd, fun hlt => ?_, fun hgt => ?_, fun heq => ?_⟩
  · simp only [afterPlacement, if_pos hlt, afterStartRange]
  · simp only [afterPlacement, if_neg (not_lt_of_gt hgt), if_pos hgt, afterStopRange]
    cases w1.actualLookupErr <;> rfl
  · simp only [afterPlacement, heq, lt_irrefl, if_false]

/-- C2 at a concrete store: scaling `p` from two to four instances opens one start
range for the indices 2 and 3. -/
theorem UpdateDesiredLRP_placement_witness :
    ∃ w2, UpdateDesiredLRP twoWorld id "p" (scaleTo 4) = some (none, w2) ∧
      ((2 : Int) < 4 →
        w2.events = twoWorldScaled.events ++
          [ .startRange 2 4,
            .createUnclaimed
              [ some { ProcessGuid := "p", Index := 2, Domain := "a" },
                some { ProcessGuid := "p", Index := 3, Domain := "a" } ],
            .requestAuctions
              [ { DesiredLRP := updatedLRP (sampleLRP "p" "a" 2) (scaleTo 4),
                  Indices := [2, 3] } ] ]) ∧
      ((4 : Int) < 2 →
        w2.events = twoWorldScaled.events ++
          .stopRange 4 2 ::
            (match twoWorldScaled.actualLookupErr with
              | some _ => []
              | none => [ .retire (storedKeys twoWorldScaled 4 2 "p") ])) ∧
      ((4 : Int) = 2 → w2 = twoWorldScaled) :=
  UpdateDesiredLRP_placement twoWorld id "p" (scaleTo 4) (sampleLRP "p" "a" 2) 1
    { Key := "/v1/desired/p", Value := .encoded (updatedLRP (sampleLRP "p" "a" 2) (scaleTo 4)),
      ModifiedIndex := 3 }
    twoWorldScaled rfl rfl (by decide) (by decide)

/-- C3: a successful `DesireLRP` stores the record with the epoch drawn at creation
and `ModificationTag.Index = 0`; after `k` further successful updates of the
same process, `k` within the range of the unsigned 64-bit counter, the stored
record carries the same epoch and the index `k`; and every successful
`UpdateDesiredLRP` of a record whose index is not the last value of the counter
writes a record whose epoch is the stored one and whose index is the stored
index plus one, so strictly larger. -/
theorem ModificationTag_after_updates (w w0 wk : World) (d : DesiredLRP)
    (us : List (DesiredLRPUpdate × (World → World)))
    (hcreate : DesireLRP w d = some (none, w0))
    (hrun : runUpdates d.ProcessGuid us w0 = some wk)
    (hrange : us.length < 18446744073709551616) :
    (∃ epoch rest lrp0 lrpk,
      w.entropy = some epoch :: rest ∧
      DesiredLRPByProcessGuid w0 d.ProcessGuid = .ok lrp0 ∧
      lrp0 = { d with ModificationTag := { Epoch := epoch, Index := 0 } } ∧
      DesiredLRPByProcessGuid wk d.ProcessGuid = .ok lrpk ∧
      lrpk.ModificationTag.Epoch = epoch ∧
      lrpk.ModificationTag.Index = us.length) ∧
    (∀ (v v2 : World) (concurrent : World → World) (processGuid : String)
        (update : DesiredLRPUpdate) (lrp : DesiredLRP) (index : Nat),
      rawDesiredLRPByProcessGuid v processGuid = .ok (lrp, index) →
      lrp.ModificationTag.Index + 1 < 18446744073709551616 →
      UpdateDesiredLRP v concurrent processGuid update = some (none, v2) →
      ∃ node written,
        fetchRaw v2 (DesiredLRPSchemaPath written) = .ok node ∧
        deserializeModel node = .ok written ∧
        written.ModificationTag.Epoch = lrp.ModificationTag.Epoch ∧
        written.ModificationTag.Index = lrp.ModificationTag.Index + 1 ∧
        lrp.ModificationTag.Index < written.ModificationTag.Index) := by
  constructor
  · obtain ⟨epoch, rest, node, hentropy, hfetch, hvalue, _⟩ := DesireLRP_written w w0 d hcreate
    have hget0 := raw_of_fetchRaw w0 d.ProcessGuid node _ hfetch hvalue
    obtain ⟨lrpk, indexk, hk, hepoch, hindex, _⟩ :=
      runUpdates_tag d.ProcessGuid us w0 wk _ _ hget0 rfl (by simp) hrun
    refine ⟨epoch, rest, _, lrpk, hentropy, ?_, rfl, ?_, hepoch, ?_⟩
    · simp only [DesiredLRPByProcessGuid, hget0]
    · simp only [DesiredLRPByProcessGuid, hk]
    · rw [hindex]
      simp only [Nat.zero_add]
      exact Nat.mod_eq_of_lt hrange
  · intro v v2 concurrent processGuid update lrp index hget hfits hok
    obtain ⟨node, hfetch, hvalue⟩ :=
      UpdateDesiredLRP_written v v2 concurrent processGuid update lrp index hget hok
    have hindex : (updatedLRP lrp update).ModificationTag.Index
        = lrp.ModificationTag.Index + 1 := by
      rw [updatedLRP_ModificationTag]
      exact Nat.mod_eq_of_lt hfits
    refine ⟨node, updatedLRP lrp update, hfetch, ?_, ?_, hindex, ?_⟩
    · simp only [deserializeModel, hvalue]
    · rw [updatedLRP_ModificationTag]
    · rw [hindex]
      exact Nat.lt_succ_self _

/-- C3 at a concrete run: `p` is created and then updated twice; the stored index is
2 and the epoch is still the one drawn at creation. -/
theorem ModificationTag_after_updates_witness :
    ∃ epoch rest lrp0 lrpk,
      emptyWorld.entropy = some epoch :: rest ∧
      DesiredLRPByProcessGuid createdWorld "p" = .ok lrp0 ∧
      lrp0 = { sampleLRP "p" "d" 2 with ModificationTag := { Epoch := epoch, Index := 0 } } ∧
      DesiredLRPByProcessGuid rescaledWorld "p" = .ok lrpk ∧
      lrpk.ModificationTag.Epoch = epoch ∧
      lrpk.ModificationTag.Index = 2 :=
  (ModificationTag_after_updates emptyWorld createdWorld rescaledWorld (sampleLRP "p" "d" 2)
    [(scaleTo 4, id), (scaleTo 1, id)] rfl rfl (by decide)).1

/-- C4: `DesireLRP` of a record with `Instances = n ≥ 0` whose process is not
stored yet, when the epoch generation succeeds, returns nil, stores the record
(with the new epoch and index 0) under its `ProcessGuid`, requests the creation
of unclaimed actual LRPs for exactly the keys `(ProcessGuid, i, Domain)`,
`i = 0 .. n-1` in ascending order, and emits exactly one `LRPStartRequest`,
carrying that record and the indices that were created: those of the range for
which no actual LRP was stored, all of `0 .. n-1` when the process had none. -/
theorem DesireLRP_creates_and_requests (w : World) (d : DesiredLRP) (epoch : String)
    (rest : List (Option String))
    (hn : 0 ≤ d.Instances ∧ IsInt32 d.Instances)
    (hfresh : fetchRaw w (DesiredLRPSchemaPathByProcessGuid d.ProcessGuid)
      = .error .ResourceNotFound)
    (hentropy : w.entropy = some epoch :: rest) :
    ∃ w2 stored created,
      DesireLRP w d = some (none, w2) ∧
      stored = { d with ModificationTag := { Epoch := epoch, Index := 0 } } ∧
      DesiredLRPByProcessGuid w2 d.ProcessGuid = .ok stored ∧
      w2.events = w.events ++
        [ .startRange 0 d.Instances,
          .createUnclaimed
            ((intRange 0 d.Instances).map
              (fun i => some { ProcessGuid := d.ProcessGuid, Index := i, Domain := d.Domain })),
          .requestAuctions [ { DesiredLRP := stored, Indices := created } ] ] ∧
      created = (missingKeys w 0 d.Instances stored).map (fun key => key.Index) ∧
      w2.actuals = w.actuals ++ (missingKeys w 0 d.Instances stored).map unclaimedActual ∧
      ((∀ a ∈ w.actuals, a.ActualLRPKey.ProcessGuid ≠ d.ProcessGuid) →
        created = intRange 0 d.Instances) := by
  have hok := DesireLRP_fresh_eq w d epoch rest hn.1 hn.2 hfresh hentropy
  have hmiss := missingKeys_congr w (afterCreate w d epoch rest) 0 d.Instances
    { d with ModificationTag := { Epoch := epoch, Index := 0 } } rfl
  obtain ⟨epoch2, rest2, node, hentropy2, hfetch, hvalue, _⟩ := DesireLRP_written w _ d hok
  have hsame : epoch2 = epoch := by
    rw [hentropy] at hentropy2
    simp only [List.cons.injEq, Option.some.injEq] at hentropy2
    exact hentropy2.1.symm
  subst hsame
  refine ⟨_, _, _, hok, rfl, ?_, ?_, rfl, ?_, ?_⟩
  · simp only [DesiredLRPByProcessGuid, raw_of_fetchRaw _ _ node _ hfetch hvalue]
  · simp only [afterStartRange]
    rw [hmiss]
    simp only [afterCreate, rangeKeys, NewActualLRPKey, List.map_map]
    rfl
  · simp only [afterStartRange]
    rw [hmiss]
    rfl
  · intro hnoactual
    rw [missingKeys_of_no_actual w 0 d.Instances
      { d with ModificationTag := { Epoch := epoch2, Index := 0 } } hnoactual]
    simp only [rangeKeys, NewActualLRPKey, List.map_map]
    exact List.map_id _

/-- C4 at a concrete store: `DesireLRP` of `p` with two instances on the empty
store creates the actual LRPs 0 and 1 and requests one auction for the indices
`[0, 1]`. -/
theorem DesireLRP_creates_and_requests_witness :
    ∃ w2 stored created,
      DesireLRP emptyWorld (sampleLRP "p" "d" 2) = some (none, w2) ∧
      stored = { sampleLRP "p" "d" 2 with ModificationTag := { Epoch := "e1", Index := 0 } } ∧
      DesiredLRPByProcessGuid w2 "p" = .ok stored ∧
      w2.events = [] ++
        [ .startRange 0 2,
          .createUnclaimed
            [ some { ProcessGuid := "p", Index := 0, Domain := "d" },
              some { ProcessGuid := "p", Index := 1, Domain := "d" } ],
          .requestAuctions [ { DesiredLRP := stored, Indices := created } ] ] ∧
      created = (missingKeys emptyWorld 0 2 stored).map (fun key => key.Index) ∧
      w2.actuals = [] ++ (missingKeys emptyWorld 0 2 stored).map unclaimedActual ∧
      ((∀ a ∈ emptyWorld.actuals, a.ActualLRPKey.ProcessGuid ≠ "p") → created = [0, 1]) :=
  DesireLRP_creates_and_requests emptyWorld (sampleLRP "p" "d" 2) "e1" [] (by decide) rfl rfl

/-- C5: when the version of the stored record changes between the `Get` and the
`CompareAndSwap` of an `UpdateDesiredLRP`, the write is refused with a conflict,
the operation returns `DesiredLRPCannotBeUpdated` after that single attempt,
and the state it leaves is the one the concurrent writer left: the stored
record is untouched and no range is opened, no request is sent. -/
theorem UpdateDesiredLRP_conflict (w : World) (concurrent : World → World)
    (processGuid : String) (update : DesiredLRPUpdate) (lrp : DesiredLRP) (index : Nat)
    (changed : Node)
    (hget : rawDesiredLRPByProcessGuid w processGuid = .ok (lrp, index))
    (hstored : fetchRaw (concurrent w) (DesiredLRPSchemaPathByProcessGuid lrp.ProcessGuid)
      = .ok changed)
    (hversion : changed.ModifiedIndex ≠ index) :
    client.CompareAndSwap (concurrent w) (DesiredLRPSchemaPath (updatedLRP lrp update))
        (.encoded (updatedLRP lrp update)) index = (.error .TestFailed, concurrent w) ∧
    ErrorFromEtcdError .TestFailed = .ResourceConflict ∧
    ∃ w2,
      UpdateDesiredLRP w concurrent processGuid update
        = some (some .DesiredLRPCannotBeUpdated, w2) ∧
      w2 = concurrent w ∧
      fetchRaw w2 (DesiredLRPSchemaPathByProcessGuid lrp.ProcessGuid) = .ok changed ∧
      w2.events = (concurrent w).events ∧
      w2.actuals = (concurrent w).actuals := by
  have hcas : client.CompareAndSwap (concurrent w) (DesiredLRPSchemaPath (updatedLRP lrp update))
      (.encoded (updatedLRP lrp update)) index = (.error .TestFailed, concurrent w) := by
    have hfind : (concurrent w).nodes.find?
        (fun n => n.Key = DesiredLRPSchemaPathByProcessGuid lrp.ProcessGuid) = some changed := by
      unfold fetchRaw at hstored
      split at hstored
      · rename_i n hn
        simp only [Except.ok.injEq] at hstored
        rw [hn, hstored]
      · cases hstored
    simp only [client.CompareAndSwap, DesiredLRPSchemaPath, updatedLRP_ProcessGuid, hfind,
      if_neg hversion]
  have hupd : UpdateDesiredLRP w concurrent processGuid update
      = some (some .DesiredLRPCannotBeUpdated, concurrent w) := by
    rw [UpdateDesiredLRP_of_get w concurrent processGuid update lrp index hget, hcas]
  exact ⟨hcas, rfl, concurrent w, hupd, rfl, hstored, rfl, rfl⟩

/-- C5 at a concrete store: another client rewrites `p` between the `Get` and the
`CompareAndSwap` of an update of `p`. -/
theorem UpdateDesiredLRP_conflict_witness :
    client.CompareAndSwap (concurrentWriter twoWorld)
        (DesiredLRPSchemaPath (updatedLRP (sampleLRP "p" "a" 2) (scaleTo 4)))
        (.encoded (updatedLRP (sampleLRP "p" "a" 2) (scaleTo 4))) 1
      = (.error .TestFailed, concurrentWriter twoWorld) ∧
    ErrorFromEtcdError .TestFailed = .ResourceConflict ∧
    ∃ w2,
      UpdateDesiredLRP twoWorld concurrentWriter "p" (scaleTo 4)
        = some (some .DesiredLRPCannotBeUpdated, w2) ∧
      w2 = concurrentWriter twoWorld ∧
      fetchRaw w2 (DesiredLRPSchemaPathByProcessGuid "p")
        = .ok { Key := "/v1/desired/p", Value := .encoded (sampleLRP "p" "a" 7),
                ModifiedIndex := 3 } ∧
      w2.events = (concurrentWriter twoWorld).events ∧
      w2.actuals = (concurrentWriter twoWorld).actuals :=
  UpdateDesiredLRP_conflict twoWorld concurrentWriter "p" (scaleTo 4) (sampleLRP "p" "a" 2) 1
    { Key := "/v1/desired/p", Value := .encoded (sampleLRP "p" "a" 7), ModifiedIndex := 3 }
    rfl rfl (by decide)

/-- C7: when the lookup of the actual LRPs succeeds, `stopInstanceRange` sends one
retirement request, whose keys are exactly the keys of the stored actual LRPs
of the process with an index `i`, `lower ≤ i < upper`, each once and in
ascending order of the index: an actual outside the range is not retired and
an index without an actual contributes no key. -/
theorem stopInstanceRange_retires_range (w : World) (lower upper : Int)
    (desiredLRP : DesiredLRP)
    (hlookup : w.actualLookupErr = none)
    (hunique : UniqueActuals w) :
    ∃ keys,
      (stopInstanceRange w lower upper desiredLRP).events
        = w.events ++ [.stopRange lower upper, .retire keys] ∧
      (∀ key, key ∈ keys ↔
        ∃ a ∈ w.actuals, a.ActualLRPKey = key ∧ key.ProcessGuid = desiredLRP.ProcessGuid
          ∧ lower ≤ key.Index ∧ key.Index < upper) ∧
      keys.Pairwise (fun a b => a.Index < b.Index) ∧
      keys.Nodup ∧
      (stopInstanceRange w lower upper desiredLRP).actuals
        = w.actuals.filter (fun a => ¬ a.ActualLRPKey ∈ keys) := by
  refine ⟨storedKeys w lower upper desiredLRP.ProcessGuid, ?_, ?_, ?_, ?_, ?_⟩
  · rw [stopInstanceRange_eq]
    simp only [afterStopRange, hlookup]
  · exact mem_storedKeys w lower upper desiredLRP.ProcessGuid hunique
  · exact storedKeys_ascending w lower upper desiredLRP.ProcessGuid
  · refine (storedKeys_ascending w lower upper desiredLRP.ProcessGuid).imp ?_
    intro a b hab heq
    rw [heq] at hab
    exact lt_irrefl _ hab
  · rw [stopInstanceRange_eq]
    simp only [afterStopRange, hlookup]

/-- C7 at a concrete store: the stop range `[1, 4)` of a process with actual LRPs at
0 .. 3 retires the keys of the indices 1, 2 and 3. -/
theorem stopInstanceRange_retires_range_witness :
    ∃ keys,
      (stopInstanceRange fourActuals 1 4 (sampleLRP "p" "d" 1)).events
        = [] ++ [.stopRange 1 4, .retire keys] ∧
      (∀ key, key ∈ keys ↔
        ∃ a ∈ fourActuals.actuals, a.ActualLRPKey = key ∧ key.ProcessGuid = "p"
          ∧ 1 ≤ key.Index ∧ key.Index < 4) ∧
      keys.Pairwise (fun a b => a.Index < b.Index) ∧
      keys.Nodup ∧
      (stopInstanceRange fourActuals 1 4 (sampleLRP "p" "d" 1)).actuals
        = fourActuals.actuals.filter (fun a => ¬ a.ActualLRPKey ∈ keys) :=
  stopInstanceRange_retires_range fourActuals 1 4 (sampleLRP "p" "d" 1) rfl (by decide)

/-- The scale-down of the spec's scenario: with actual LRPs at 0 .. 3, the stop range
`[1, 4)` retires the keys of the indices 1, 2, 3. -/
theorem stopInstanceRange_scale_down_example :
    (stopInstanceRange fourActuals 1 4 (sampleLRP "p" "d" 1)).events
      = [ .stopRange 1 4,
          .retire
            [ { ProcessGuid := "p", Index := 1, Domain := "d" },
              { ProcessGuid := "p", Index := 2, Domain := "d" },
              { ProcessGuid := "p", Index := 3, Domain := "d" } ] ] := by
  rfl

/-- C8: `RemoveDesiredLRP` of a process without a stored record returns the lookup
error `ResourceNotFound` and leaves the state as it is; for a process whose
record is stored with `Instances = n` it deletes that record (and no other),
returns nil and, the lookup of the actual LRPs succeeding, retires in one
request exactly the stored actual LRPs of the process with an index in
`[0, n)`. -/
theorem RemoveDesiredLRP_deletes_and_retires (w : World) (processGuid : String) :
    (fetchRaw w (DesiredLRPSchemaPathByProcessGuid processGuid) = .error .ResourceNotFound →
      RemoveDesiredLRP w processGuid = (some .ResourceNotFound, w)) ∧
    (∀ (lrp : DesiredLRP) (index : Nat),
      rawDesiredLRPByProcessGuid w processGuid = .ok (lrp, index) →
      lrp.ProcessGuid = processGuid →
      w.actualLookupErr = none →
      UniqueActuals w →
      ∃ w2 keys,
        RemoveDesiredLRP w processGuid = (none, w2) ∧
        fetchRaw w2 (DesiredLRPSchemaPathByProcessGuid processGuid) = .error .ResourceNotFound ∧
        w2.desired = some (w.nodes.filter
          (fun m => ¬ m.Key = DesiredLRPSchemaPathByProcessGuid processGuid)) ∧
        w2.events = w.events ++ [.stopRange 0 lrp.Instances, .retire keys] ∧
        (∀ key, key ∈ keys ↔
          ∃ a ∈ w.actuals, a.ActualLRPKey = key ∧ key.ProcessGuid = processGuid
            ∧ 0 ≤ key.Index ∧ key.Index < lrp.Instances) ∧
        keys.Pairwise (fun a b => a.Index < b.Index) ∧
        w2.actuals = w.actuals.filter (fun a => ¬ a.ActualLRPKey ∈ keys)) := by
  constructor
  · intro habsent
    simp only [RemoveDesiredLRP, DesiredLRPByProcessGuid, rawDesiredLRPByProcessGuid, habsent]
  · intro lrp index hget hguid hlookup hunique
    have hfind : ∃ n, w.nodes.find?
        (fun n => n.Key = DesiredLRPSchemaPathByProcessGuid processGuid) = some n := by
      unfold rawDesiredLRPByProcessGuid fetchRaw at hget
      split at hget
      · rename_i err herr
        cases hget
      · rename_i node hnode
        split at hnode
        · rename_i n hn
          exact ⟨n, hn⟩
        · cases hnode
    obtain ⟨n, hn⟩ := hfind
    have hrem : RemoveDesiredLRP w processGuid
        = (none, stopInstanceRange
            { w with
              desired := some (w.nodes.filter
                (fun m => ¬ m.Key = DesiredLRPSchemaPathByProcessGuid processGuid)),
              etcdIndex := w.etcdIndex + 1 } 0 lrp.Instances lrp) := by
      simp only [RemoveDesiredLRP, DesiredLRPByProcessGuid, hget, client.Delete, hn]
    refine ⟨_, storedKeys w 0 lrp.Instances processGuid, hrem, ?_, ?_, ?_, ?_, ?_, ?_⟩
    · rw [fetchRaw_congr _ _ _ (stopInstanceRange_desired _ _ _ _)]
      simp only [fetchRaw, World.nodes, Option.getD_some]
      rw [List.find?_eq_none.mpr]
      intro m hm
      rw [List.mem_filter] at hm
      simpa using hm.2
    · rw [stopInstanceRange_desired]
    · rw [stopInstanceRange_eq]
      simp only [afterStopRange, hlookup, hguid]
      rfl
    · exact mem_storedKeys w 0 lrp.Instances processGuid hunique
    · exact storedKeys_ascending w 0 lrp.Instances processGuid
    · rw [stopInstanceRange_eq]
      simp only [afterStopRange, hlookup, hguid]
      rfl

/-- C8 at concrete stores: removing `p` from the empty store is refused and changes
nothing; removing the stored `p` deletes its record and retires its four
actual LRPs. -/
theorem RemoveDesiredLRP_deletes_and_retires_witness :
    RemoveDesiredLRP emptyWorld "p" = (some .ResourceNotFound, emptyWorld) ∧
    ∃ w2 keys,
      RemoveDesiredLRP fourWorld "p" = (none, w2) ∧
      fetchRaw w2 (DesiredLRPSchemaPathByProcessGuid "p") = .error .ResourceNotFound ∧
      w2.desired = some (fourWorld.nodes.filter
        (fun m => ¬ m.Key = DesiredLRPSchemaPathByProcessGuid "p")) ∧
      w2.events = [] ++ [.stopRange 0 4, .retire keys] ∧
      (∀ key, key ∈ keys ↔
        ∃ a ∈ fourWorld.actuals, a.ActualLRPKey = key ∧ key.ProcessGuid = "p"
          ∧ 0 ≤ key.Index ∧ key.Index < 4) ∧
      keys.Pairwise (fun a b => a.Index < b.Index) ∧
      w2.actuals = fourWorld.actuals.filter (fun a => ¬ a.ActualLRPKey ∈ keys) :=
  ⟨(RemoveDesiredLRP_deletes_and_retires emptyWorld "p").1 rfl,
    (RemoveDesiredLRP_deletes_and_retires fourWorld "p").2 (sampleLRP "p" "d" 4) 1
      rfl rfl rfl (by decide)⟩

/-- The zero delta on the two paths: an update whose `Get` and `CompareAndSwap`
succeed and that leaves `Instances` as it was opens no range and sends no
request (the state it leaves is the one right after the write), while
`DesireLRP` of a new record with `Instances = 0` runs the start range `[0, 0)`:
it creates no actual LRP (its creation request carries no key) and still sends
one auction request, whose `LRPStartRequest` has no index. -/
theorem zero_delta_placement :
    (∀ (w : World) (concurrent : World → World) (processGuid : String)
        (update : DesiredLRPUpdate) (lrp : DesiredLRP) (index : Nat) (node : Node) (w1 : World),
      rawDesiredLRPByProcessGuid w processGuid = .ok (lrp, index) →
      client.CompareAndSwap (concurrent w) (DesiredLRPSchemaPath (updatedLRP lrp update))
        (.encoded (updatedLRP lrp update)) index = (.ok node, w1) →
      (updatedLRP lrp update).Instances = lrp.Instances →
      UpdateDesiredLRP w concurrent processGuid update = some (none, w1)) ∧
    (∀ (w : World) (d : DesiredLRP) (epoch : String) (rest : List (Option String)),
      d.Instances = 0 →
      fetchRaw w (DesiredLRPSchemaPathByProcessGuid d.ProcessGuid) = .error .ResourceNotFound →
      w.entropy = some epoch :: rest →
      ∃ w2,
        DesireLRP w d = some (none, w2) ∧
        w2.actuals = w.actuals ∧
        w2.events = w.events ++
          [ .startRange 0 0,
            .createUnclaimed [],
            .requestAuctions
              [ { DesiredLRP := { d with ModificationTag := { Epoch := epoch, Index := 0 } },
                  Indices := [] } ] ]) := by
  constructor
  · intro w concurrent processGuid update lrp index node w1 hget hcas hsame
    rw [UpdateDesiredLRP_of_get w concurrent processGuid update lrp index hget, hcas]
    simp only [hsame, sub_self]
    rfl
  · intro w d epoch rest hzero hfresh hentropy
    have hok := DesireLRP_fresh_eq w d epoch rest (by rw [hzero]) (by rw [hzero]; decide)
      hfresh hentropy
    refine ⟨_, hok, ?_, ?_⟩
    · simp [afterStartRange, missingKeys, rangeKeys, intRange, hzero, afterCreate]
    · simp [afterStartRange, missingKeys, rangeKeys, intRange, hzero, afterCreate]

/-- The zero delta at concrete stores: an update of `p` that keeps its two
instances, and `DesireLRP` of `p` with no instance on the empty store. -/
theorem zero_delta_placement_witness :
    UpdateDesiredLRP twoWorld id "p" (scaleTo 2) = some (none, twoWorldRewritten) ∧
    ∃ w2,
      DesireLRP emptyWorld (sampleLRP "p" "d" 0) = some (none, w2) ∧
      w2.actuals = [] ∧
      w2.events = [] ++
        [ .startRange 0 0,
          .createUnclaimed [],
          .requestAuctions
            [ { DesiredLRP :=
                  { sampleLRP "p" "d" 0 with ModificationTag := { Epoch := "e1", Index := 0 } },
                Indices := [] } ] ] :=
  ⟨zero_delta_placement.1 twoWorld id "p" (scaleTo 2) (sampleLRP "p" "a" 2) 1
      { Key := "/v1/desired/p", Value := .encoded (updatedLRP (sampleLRP "p" "a" 2) (scaleTo 2)),
        ModifiedIndex := 3 }
      twoWorldRewritten rfl rfl rfl,
    zero_delta_placement.2 emptyWorld (sampleLRP "p" "d" 0) "e1" [] rfl rfl rfl⟩

/-- C9, the code at the failing input: `DesireLRP` of a record with `Instances = 0`
on the empty store returns nil and the auctioneer receives an auction request
(with an empty index list), where the claim has none; on the sibling path, an
`UpdateDesiredLRP` that keeps the two instances of `p` sends nothing. -/
theorem DesireLRP_zero_instances_requests_auction :
    (∃ w2,
      DesireLRP emptyWorld (sampleLRP "p" "d" 0) = some (none, w2) ∧
      w2.actuals = [] ∧
      w2.events =
        [ .startRange 0 0,
          .createUnclaimed [],
          .requestAuctions
            [ { DesiredLRP :=
                  { sampleLRP "p" "d" 0 with ModificationTag := { Epoch := "e1", Index := 0 } },
                Indices := [] } ] ] ∧
      w2.events.filter (fun e => match e with | .requestAuctions _ => true | _ => false) ≠ []) ∧
    (∃ w2,
      UpdateDesiredLRP twoWorld id "p" (scaleTo 2) = some (none, w2) ∧
      w2.events = []) :=
  ⟨⟨_, rfl, rfl, rfl, by decide⟩, ⟨_, rfl, rfl⟩⟩

/-- C10: whatever the auctioneer answers and whether or not the lookup of the actual
LRPs fails, a `DesireLRP` whose `Create` succeeds and an `UpdateDesiredLRP` whose
`CompareAndSwap` succeeds never return an error and leave the written record
stored as it was written; with `Instances` values that are non-negative `int32`
they do return, with nil: the auction request of a start range is sent all the
same, and a stop range whose lookup fails retires nothing. -/
theorem placement_failure_not_returned :
    (∀ (w : World) (d : DesiredLRP) (epoch : String) (rest : List (Option String)),
      fetchRaw w (DesiredLRPSchemaPathByProcessGuid d.ProcessGuid) = .error .ResourceNotFound →
      w.entropy = some epoch :: rest →
      (∀ e w2, DesireLRP w d = some (e, w2) →
        e = none ∧
        ∃ node,
          fetchRaw w2 (DesiredLRPSchemaPathByProcessGuid d.ProcessGuid) = .ok node ∧
          node.Value = .encoded { d with ModificationTag := { Epoch := epoch, Index := 0 } }) ∧
      (0 ≤ d.Instances ∧ IsInt32 d.Instances →
        ∃ w2 requests,
          DesireLRP w d = some (none, w2) ∧
          w2.events.getLast? = some (.requestAuctions requests))) ∧
    (∀ (w : World) (concurrent : World → World) (processGuid : String)
        (update : DesiredLRPUpdate) (lrp : DesiredLRP) (index : Nat) (node : Node) (w1 : World),
      rawDesiredLRPByProcessGuid w processGuid = .ok (lrp, index) →
      client.CompareAndSwap (concurrent w) (DesiredLRPSchemaPath (updatedLRP lrp update))
        (.encoded (updatedLRP lrp update)) index = (.ok node, w1) →
      (∀ e w2, UpdateDesiredLRP w concurrent processGuid update = some (e, w2) →
        e = none ∧
        fetchRaw w2 (DesiredLRPSchemaPath (updatedLRP lrp update)) = .ok node ∧
        node.Value = .encoded (updatedLRP lrp update) ∧
        w2.desired = w1.desired) ∧
      (0 ≤ lrp.Instances ∧ IsInt32 lrp.Instances →
        0 ≤ (updatedLRP lrp update).Instances ∧ IsInt32 (updatedLRP lrp update).Instances →
        ∃ w2,
          UpdateDesiredLRP w concurrent processGuid update = some (none, w2) ∧
          (lrp.Instances < (updatedLRP lrp update).Instances →
            ∃ requests, w2.events.getLast? = some (.requestAuctions requests)) ∧
          ((updatedLRP lrp update).Instances < lrp.Instances →
            ∀ err, w1.actualLookupErr = some err →
              w2.events
                  = w1.events ++ [.stopRange (updatedLRP lrp update).Instances lrp.Instances]
                ∧ w2.actuals = w1.actuals))) := by
  constructor
  · intro w d epoch rest hfresh hentropy
    constructor
    · intro e w2 hret
      obtain ⟨he, _⟩ := DesireLRP_after_write w w2 d epoch rest e hfresh hentropy hret
      subst he
      obtain ⟨epoch2, rest2, node, hentropy2, hfetch, hvalue, _⟩ := DesireLRP_written w w2 d hret
      have hsame : epoch2 = epoch := by
        rw [hentropy] at hentropy2
        simp only [List.cons.injEq, Option.some.injEq] at hentropy2
        exact hentropy2.1.symm
      subst hsame
      exact ⟨rfl, node, hfetch, hvalue⟩
    · intro hn
      have hok := DesireLRP_fresh_eq w d epoch rest hn.1 hn.2 hfresh hentropy
      have hlast : ∃ requests,
          (afterStartRange (afterCreate w d epoch rest) 0 d.Instances
            { d with ModificationTag := { Epoch := epoch, Index := 0 } }).events.getLast?
            = some (.requestAuctions requests) := by
        simp only [afterStartRange]
        rw [List.getLast?_append]
        exact ⟨_, rfl⟩
      obtain ⟨requests, hrequests⟩ := hlast
      exact ⟨_, requests, hok, hrequests⟩
  · intro w concurrent processGuid update lrp index node w1 hget hcas
    obtain ⟨hfetch, hvalue, _⟩ := CompareAndSwap_ok _ _ _ _ _ _ hcas
    constructor
    · intro e w2 hret
      obtain ⟨he, hdesired⟩ :=
        UpdateDesiredLRP_after_write w w1 w2 concurrent processGuid update lrp index node e
          hget hcas hret
      refine ⟨he, ?_, hvalue, hdesired⟩
      rw [fetchRaw_congr _ _ _ hdesired]
      exact hfetch
    · intro hold hnew
      have hupd := UpdateDesiredLRP_eq w concurrent processGuid update lrp index node w1 hget hcas
        hold hnew
      refine ⟨_, hupd, fun hlt => ?_, fun hgt err herr => ?_⟩
      · simp only [afterPlacement, if_pos hlt, afterStartRange]
        rw [List.getLast?_append]
        exact ⟨_, rfl⟩
      · simp only [afterPlacement, if_neg (not_lt_of_gt hgt), if_pos hgt, afterStopRange, herr,
          and_self]

/-- C10 at concrete stores: `DesireLRP` of `p` while the auctioneer fails, and the
scale-down of `p` from two instances to one while the lookup of the actual LRPs
fails. -/
theorem placement_failure_not_returned_witness :
    (∃ w2 requests,
      DesireLRP failingWorld (sampleLRP "p" "d" 2) = some (none, w2) ∧
      w2.events.getLast? = some (.requestAuctions requests)) ∧
    (∃ w2,
      UpdateDesiredLRP failingTwoWorld id "p" (scaleTo 1) = some (none, w2) ∧
      ((2 : Int) < 1 → ∃ requests, w2.events.getLast? = some (.requestAuctions requests)) ∧
      ((1 : Int) < 2 →
        ∀ err, failingTwoWorldScaled.actualLookupErr = some err →
          w2.events = failingTwoWorldScaled.events ++ [.stopRange 1 2]
            ∧ w2.actuals = failingTwoWorldScaled.actuals)) :=
  ⟨(placement_failure_not_returned.1 failingWorld (sampleLRP "p" "d" 2) "e1" [] rfl rfl).2
      (by decide),
    (placement_failure_not_returned.2 failingTwoWorld id "p" (scaleTo 1) (sampleLRP "p" "a" 2) 1
      { Key := "/v1/desired/p", Value := .encoded (updatedLRP (sampleLRP "p" "a" 2) (scaleTo 1)),
        ModifiedIndex := 3 }
      failingTwoWorldScaled rfl rfl).2 (by decide) (by decide)⟩

/-- C11: `DesireLRP` of a record whose `ProcessGuid` is already stored performs no
placement work and leaves the store as it is, the stored record with its
modification tag included: no range is opened, no actual LRP is created, no
request is sent. When the epoch generation succeeds the `Create` is refused and
the error returned is `ResourceExists`; the only other outcome is the
`UnknownError` of a failed epoch generation. -/
theorem DesireLRP_duplicate (w : World) (d : DesiredLRP) (existing : Node)
    (epoch : String) (rest : List (Option String))
    (hstored : fetchRaw w (DesiredLRPSchemaPathByProcessGuid d.ProcessGuid) = .ok existing)
    (hentropy : w.entropy = some epoch :: rest) :
    DesireLRP w d = some (some .ResourceExists, { w with entropy := rest }) ∧
    (∀ (v : World) (r : Option (Option ErrorType × World)),
      fetchRaw v (DesiredLRPSchemaPathByProcessGuid d.ProcessGuid) = .ok existing →
      DesireLRP v d = r →
      ∃ e v2, r = some (some e, v2) ∧
        (e = .ResourceExists ∨ e = .UnknownError) ∧
        fetchRaw v2 (DesiredLRPSchemaPathByProcessGuid d.ProcessGuid) = .ok existing ∧
        v2.desired = v.desired ∧ v2.etcdIndex = v.etcdIndex ∧
        v2.actuals = v.actuals ∧ v2.events = v.events) := by
  have hdup : ∀ (v : World) (ep : String) (rs : List (Option String)),
      fetchRaw v (DesiredLRPSchemaPathByProcessGuid d.ProcessGuid) = .ok existing →
      v.entropy = some ep :: rs →
      DesireLRP v d = some (some .ResourceExists, { v with entropy := rs }) := by
    intro v ep rs hv hent
    have hfind : ∃ n, (({ v with entropy := rs } : World).nodes).find?
        (fun n => n.Key = DesiredLRPSchemaPathByProcessGuid d.ProcessGuid) = some n := by
      unfold fetchRaw at hv
      split at hv
      · rename_i n hn
        exact ⟨n, hn⟩
      · cases hv
    obtain ⟨n, hn⟩ := hfind
    simp only [DesireLRP, uuid.NewV4, hent, serializeModel, client.Create, DesiredLRPSchemaPath,
      hn, ErrorFromEtcdError]
  refine ⟨hdup w epoch rest hstored hentropy, ?_⟩
  intro v r hv hr
  subst hr
  cases hent : v.entropy with
  | nil =>
    exact ⟨.UnknownError, v, by simp only [DesireLRP, uuid.NewV4, hent], Or.inr rfl, hv, rfl,
      rfl, rfl, rfl⟩
  | cons head rs =>
    cases head with
    | none =>
      exact ⟨.UnknownError, { v with entropy := rs },
        by simp only [DesireLRP, uuid.NewV4, hent], Or.inr rfl, hv, rfl, rfl, rfl, rfl⟩
    | some ep =>
      exact ⟨.ResourceExists, { v with entropy := rs }, hdup v ep rs hv hent, Or.inl rfl, hv,
        rfl, rfl, rfl, rfl⟩

/-- C11 at a concrete store: `p` is stored in `twoWorld` and desired again. -/
theorem DesireLRP_duplicate_witness :
    DesireLRP twoWorld (sampleLRP "p" "z" 5)
      = some (some .ResourceExists, { twoWorld with entropy := [] }) :=
  (DesireLRP_duplicate twoWorld (sampleLRP "p" "z" 5)
    { Key := "/v1/desired/p", Value := .encoded (sampleLRP "p" "a" 2), ModifiedIndex := 1 }
    "e1" [] rfl rfl).1

/-- C12: when the desired-LRP prefix is absent from the store (the recursive fetch
reports `ResourceNotFound`) or present without any child, `DesiredLRPs` returns
an empty list and a nil error, for every filter. -/
theorem DesiredLRPs_without_records (w : World) (schedule : List Nat) (filter : DesiredLRPFilter)
    (hempty : w.desired = none ∨ w.desired = some []) :
    DesiredLRPs w schedule filter = ([], none) ∧
    (w.desired = none →
      fetchRecursiveRaw w DesiredLRPSchemaRoot = .error .ResourceNotFound) ∧
    (w.desired = some [] →
      fetchRecursiveRaw w DesiredLRPSchemaRoot
        = .ok { Key := DesiredLRPSchemaRoot, Nodes := [] }) := by
  refine ⟨?_, fun h => ?_, fun h => ?_⟩
  · rcases hempty with h | h
    · simp [DesiredLRPs, fetchRecursiveRaw, h, ConvertError]
    · simp [DesiredLRPs, fetchRecursiveRaw, h]
  · simp [fetchRecursiveRaw, h]
  · simp [fetchRecursiveRaw, h]

/-- C12 at concrete stores: the prefix is absent in `emptyWorld`. -/
theorem DesiredLRPs_without_records_witness :
    DesiredLRPs emptyWorld [] { Domain := "a" } = ([], none) :=
  (DesiredLRPs_without_records emptyWorld [] { Domain := "a" } (Or.inl rfl)).1

/-- C16 (amended): for `int32` bounds `lower ≤ upper` with `upper - lower` not
overflowing, `startInstanceRange` does not panic and its key slice has the
length `upper - lower`, no nil entry, and the key
`(ProcessGuid, lower + j, Domain)` at the position `j`. For every `int32`
`upper < lower` the operation panics instead of returning. When
`upper - lower` does not overflow (so for `DesireLRP` of a new record with
negative `Instances`, where `lower = 0`) the panic is that of the slice
allocation, whose length is negative; when `upper - lower` is below the `int32`
range the length wraps to the positive `upper - lower + 2^32`, the allocation
yields a slice whose entries all stay nil, and the panic is that of the nil
key. -/
theorem startInstanceRange_key_slice (lower upper : Int) (desiredLRP : DesiredLRP)
    (hl : IsInt32 lower) (hu : IsInt32 upper) :
    (lower ≤ upper → IsInt32 (upper - lower) →
      ∃ keys,
        startInstanceRange.keys lower upper desiredLRP = some keys ∧
        keys.length = (upper - lower).toNat ∧
        (∀ key ∈ keys, key ≠ none) ∧
        (∀ j : Nat, j < (upper - lower).toNat →
          keys[j]? = some (some
            { ProcessGuid := desiredLRP.ProcessGuid, Index := lower + (j : Int),
              Domain := desiredLRP.Domain })) ∧
        ∀ w, ∃ w2, startInstanceRange w lower upper desiredLRP = some w2) ∧
    (upper < lower → ∀ w, startInstanceRange w lower upper desiredLRP = none) ∧
    (upper < lower → IsInt32 (upper - lower) →
      wrapInt32 (upper - lower) < 0 ∧
      startInstanceRange.keys lower upper desiredLRP = none) ∧
    (upper < lower → ¬ IsInt32 (upper - lower) →
      0 < wrapInt32 (upper - lower) ∧
      wrapInt32 (upper - lower) = upper - lower + 4294967296 ∧
      startInstanceRange.keys lower upper desiredLRP
        = some (List.replicate (upper - lower + 4294967296).toNat none)) ∧
    (∀ (w : World) (d : DesiredLRP) (epoch : String) (rest : List (Option String)),
      d.Instances < 0 → IsInt32 d.Instances →
      fetchRaw w (DesiredLRPSchemaPathByProcessGuid d.ProcessGuid) = .error .ResourceNotFound →
      w.entropy = some epoch :: rest →
      DesireLRP w d = none) := by
  refine ⟨fun hle hfit => ?_, fun hlt w => ?_, fun hlt hfit => ?_, fun hlt hfit => ?_, ?_⟩
  · refine ⟨_, startInstanceRange_keys_eq lower upper desiredLRP hle hfit, ?_, ?_, ?_, ?_⟩
    · simp [rangeKeys, intRange_length]
    · intro key hkey
      simp only [List.mem_map] at hkey
      obtain ⟨k, _, rfl⟩ := hkey
      simp
    · intro j hj
      exact rangeKeys_getElem? lower upper desiredLRP j hj
    · intro w
      exact ⟨_, startInstanceRange_eq w lower upper desiredLRP hle hfit⟩
  · by_cases hfit : IsInt32 (upper - lower)
    · exact startInstanceRange_panics_of_keys w _ _ _
        (startInstanceRange_keys_negative lower upper desiredLRP hlt hfit)
    · obtain ⟨hkeys, hpos⟩ :=
        startInstanceRange_keys_wrapped lower upper desiredLRP hl hu hlt hfit
      exact startInstanceRange_panics_of_nil_keys w _ _ _ _ (by omega) hkeys
  · refine ⟨?_, startInstanceRange_keys_negative lower upper desiredLRP hlt hfit⟩
    rw [wrapInt32_of_isInt32 _ hfit]
    omega
  · obtain ⟨hkeys, hpos⟩ :=
      startInstanceRange_keys_wrapped lower upper desiredLRP hl hu hlt hfit
    refine ⟨?_, ?_, hkeys⟩
    · unfold IsInt32 at hl hu hfit
      unfold wrapInt32
      omega
    · unfold IsInt32 at hl hu hfit
      unfold wrapInt32
      omega
  · intro w d epoch rest hneg hfit hfresh hentropy
    rw [DesireLRP_of_fresh w d epoch rest hfresh hentropy]
    have hnone := startInstanceRange_keys_negative 0 d.Instances
      { d with ModificationTag := { Epoch := epoch, Index := 0 } } hneg (by simpa using hfit)
    rw [startInstanceRange_panics_of_keys _ _ _ _ hnone]

/-- C16 (amended) at concrete bounds: the key slice of the range `[2, 4)` of `p`. -/
theorem startInstanceRange_key_slice_witness :
    ∃ keys,
      startInstanceRange.keys 2 4 (sampleLRP "p" "d" 4) = some keys ∧
      keys.length = ((4 : Int) - 2).toNat ∧
      (∀ key ∈ keys, key ≠ none) ∧
      (∀ j : Nat, j < ((4 : Int) - 2).toNat →
        keys[j]? = some (some { ProcessGuid := "p", Index := 2 + (j : Int), Domain := "d" })) ∧
      ∀ w, ∃ w2, startInstanceRange w 2 4 (sampleLRP "p" "d" 4) = some w2 :=
  (startInstanceRange_key_slice 2 4 (sampleLRP "p" "d" 4) (by decide) (by decide)).1
    (by decide) (by decide)

/-- C16 as stated fails for `upper < lower` when the difference leaves the `int32`
range: for the bounds `lower = 2^31 - 1` and `upper = -2^31` the length
`upper - lower` wraps to 1, so the slice allocation does not have a negative
length: it yields a slice of one entry, which the loop leaves nil. The
operation panics there all the same. -/
theorem startInstanceRange_wrapped_length_one :
    IsInt32 2147483647 ∧ IsInt32 (-2147483648) ∧
    (-2147483648 : Int) < 2147483647 ∧
    wrapInt32 (-2147483648 - 2147483647) = 1 ∧
    startInstanceRange.keys 2147483647 (-2147483648) (sampleLRP "p" "d" 1) = some [none] ∧
    startInstanceRange emptyWorld 2147483647 (-2147483648) (sampleLRP "p" "d" 1) = none :=
  ⟨by decide, by decide, by decide, by decide, by decide, by decide⟩

/-- C17: `CellCapacity.Validate` returns nil if and only if `MemoryMb > 0`,
`DiskMb ≥ 0` and `Containers > 0`; otherwise it returns the `ValidationError`
obtained by appending, from the zero value, one `ErrInvalidField` per violated
field: `memory_mb` when `MemoryMb ≤ 0`, `disk_mb` when `DiskMb < 0`,
`containers` when `Containers ≤ 0`, each once and in that order. -/
theorem CellCapacity_Validate_spec {VE : Type} (ops : ValidationErrorOps VE)
    (hlaw : ops.Lawful) (cap : CellCapacity) :
    (cap.Validate ops = none ↔ 0 < cap.MemoryMb ∧ 0 ≤ cap.DiskMb ∧ 0 < cap.Containers) ∧
    (∀ err, cap.Validate ops = some err →
      err = .ValidationError
        ((capacityViolations cap).foldl
          (fun ve field => ops.Append ve (.ErrInvalidField field)) ops.zero)) ∧
    (∀ field, field ∈ capacityViolations cap ↔
      (field = "memory_mb" ∧ cap.MemoryMb ≤ 0) ∨ (field = "disk_mb" ∧ cap.DiskMb < 0)
        ∨ (field = "containers" ∧ cap.Containers ≤ 0)) ∧
    (capacityViolations cap).Sublist ["memory_mb", "disk_mb", "containers"] ∧
    (capacityViolations cap).Nodup := by
  have heq := CellCapacity_Validate_eq ops hlaw cap
  have hnil := capacityViolations_eq_nil cap
  have hsub : (capacityViolations cap).Sublist ["memory_mb", "disk_mb", "containers"] := by
    unfold capacityViolations
    by_cases h1 : cap.MemoryMb ≤ 0 <;> by_cases h2 : cap.DiskMb < 0 <;>
      by_cases h3 : cap.Containers ≤ 0 <;>
      simp [h1, h2, h3]
  refine ⟨?_, ?_, ?_, hsub, ?_⟩
  · rw [heq, ← hnil]
    by_cases h : capacityViolations cap = [] <;> simp [h]
  · intro err herr
    rw [heq] at herr
    by_cases h : capacityViolations cap = []
    · simp [h] at herr
    · simp only [h, if_false, Option.some.injEq] at herr
      exact herr.symm
  · intro field
    unfold capacityViolations
    by_cases h1 : cap.MemoryMb ≤ 0 <;> by_cases h2 : cap.DiskMb < 0 <;>
      by_cases h3 : cap.Containers ≤ 0 <;>
      simp [h1, h2, h3]
  · exact hsub.nodup (by decide)

/-- C17 at concrete capacities, with a `ValidationError` that is a slice of errors:
a capacity with a zero `DiskMb` is accepted, and one without memory and without
containers is refused with the fields `memory_mb` and `containers`. -/
theorem CellCapacity_Validate_spec_witness :
    ((NewCellCapacity 1 0 1).Validate sliceValidationError = none ↔
      (0 : Int) < 1 ∧ (0 : Int) ≤ 0 ∧ (0 : Int) < 1) ∧
    (∀ err, (NewCellCapacity 0 0 0).Validate sliceValidationError = some err →
      err = .ValidationError ["memory_mb", "containers"]) :=
  ⟨(CellCapacity_Validate_spec sliceValidationError sliceValidationError_lawful
      (NewCellCapacity 1 0 1)).1,
    (CellCapacity_Validate_spec sliceValidationError sliceValidationError_lawful
      (NewCellCapacity 0 0 0)).2.1⟩

/-- The validation of a capacity without memory and without containers, with a
`ValidationError` that is a slice of errors. -/
theorem CellCapacity_Validate_example :
    (NewCellCapacity 0 0 0).Validate sliceValidationError
      = some (.ValidationError ["memory_mb", "containers"]) := by
  rfl

/-- C18: for a `CellPresence` with a non-nil `Capacity`, `Validate` returns, and it
returns nil if and only if `CellId` is non-empty, `RepAddress` is non-empty and
`Capacity.Validate()` returns nil; otherwise it returns the `ValidationError`
obtained by appending, from the zero value, every violation in the order
`cell_id`, `rep_address`, error of the capacity. For a `CellPresence` with a
nil `Capacity`, `Validate` does not return: it panics. -/
theorem CellPresence_Validate_spec {VE : Type} (ops : ValidationErrorOps VE)
    (hlaw : ops.Lawful) (c : CellPresence) :
    (∀ capacity, c.Capacity = some capacity →
      ∃ r, c.Validate ops = some r ∧
        (r = none ↔ c.CellId ≠ "" ∧ c.RepAddress ≠ "" ∧ capacity.Validate ops = none) ∧
        (∀ err, r = some err →
          err = .ValidationError
            ((presenceViolations ops c capacity).foldl ops.Append ops.zero)) ∧
        (r = none → presenceViolations ops c capacity = [])) ∧
    (c.Capacity = none → c.Validate ops = none) := by
  constructor
  · intro capacity hcap
    unfold CellPresence.Validate presenceViolations
    simp only [hcap]
    cases hv : capacity.Validate ops with
    | none =>
      by_cases h1 : c.CellId = "" <;> by_cases h2 : c.RepAddress = "" <;>
        simp [h1, h2, hlaw.empty_zero, hlaw.append_field]
    | some err =>
      obtain ⟨ve, rfl, hve⟩ := CellCapacity_Validate_nonempty ops capacity err hv
      by_cases h1 : c.CellId = "" <;> by_cases h2 : c.RepAddress = "" <;>
        simp [h1, h2, hlaw.append_nested _ _ hve]
  · intro hnil
    unfold CellPresence.Validate
    simp only [hnil]

/-- A cell presence whose `Capacity` is nil. -/
theorem CellPresence_Validate_nil_example :
    CellPresence.Validate sliceValidationError
      { CellId := "c1", RepAddress := "r1", Zone := "z1", Capacity := none,
        RootfsProviders := [] } = none := by
  rfl

/-- C18 at a concrete cell presence, with a `ValidationError` that is a slice of
errors: an empty `CellId`, an empty `RepAddress` and a capacity without memory
are reported together, in that order. -/
theorem CellPresence_Validate_spec_witness :
    ∃ r, (sampleCell "" "" 0).Validate sliceValidationError = some r ∧
      (r = none ↔ ("" : String) ≠ "" ∧ ("" : String) ≠ "" ∧
        (NewCellCapacity 0 0 10).Validate sliceValidationError = none) ∧
      (∀ err, r = some err →
        err = .ValidationError ["cell_id", "rep_address", "memory_mb"]) ∧
      (r = none →
        presenceViolations sliceValidationError (sampleCell "" "" 0) (NewCellCapacity 0 0 10)
          = []) :=
  (CellPresence_Validate_spec sliceValidationError sliceValidationError_lawful
    (sampleCell "" "" 0)).1 (NewCellCapacity 0 0 10) rfl

/-- C19: for a list of non-nil cell presences, `NewCellSetFromList` returns a set for
which `HasCellID(id)` is true if and only if some element of the list has
`CellId = id`; the set holds one entry per distinct `CellId`, and the entry of
a `CellId` is the last element of the list with that `CellId`.
`NewCellSet().HasCellID(id)` is false for every `id`. A list with a nil element
makes `Add` panic. -/
theorem NewCellSetFromList_spec (cells : List CellPresence) :
    ∃ set,
      NewCellSetFromList (cells.map some) = some set ∧
      (∀ cellID, set.HasCellID cellID = true ↔ ∃ c ∈ cells, c.CellId = cellID) ∧
      (∀ cellID,
        CellSet.get set cellID = (cells.filter (fun c => c.CellId = cellID)).getLast?) ∧
      (set.map Prod.fst).Nodup ∧
      set.length = ((cells.map (fun c => c.CellId)).dedup).length ∧
      (∀ cellID, CellSet.HasCellID NewCellSet cellID = false) ∧
      (∀ pointers : List (Option CellPresence), none ∈ pointers →
        NewCellSetFromList pointers = none) := by
  obtain ⟨hnodup, hkeys⟩ := cellSetOf_keys cells
  refine ⟨cellSetOf cells, NewCellSetFromList_some cells, ?_, cellSetOf_get cells, hnodup, ?_,
    fun _ => rfl, fun pointers hnil => NewCellSetFromList_nil_cell pointers hnil _⟩
  · intro cellID
    unfold CellSet.HasCellID
    rw [cellSetOf_get]
    constructor
    · intro h
      split at h
      · rename_i c hc
        have hmem := List.mem_of_getLast?_eq_some hc
        rw [List.mem_filter] at hmem
        exact ⟨c, hmem.1, by simpa using hmem.2⟩
      · cases h
    · rintro ⟨c, hc, hid⟩
      have hmem : c ∈ cells.filter (fun c => c.CellId = cellID) := by
        rw [List.mem_filter]
        exact ⟨hc, by simpa using hid⟩
      cases hlast : (cells.filter (fun c => c.CellId = cellID)).getLast? with
      | none =>
        rw [List.getLast?_eq_none_iff] at hlast
        rw [hlast] at hmem
        cases hmem
      | some x => rfl
  · have hperm : ((cellSetOf cells).map Prod.fst).Perm ((cells.map (fun c => c.CellId)).dedup) := by
      rw [List.perm_ext_iff_of_nodup hnodup (List.nodup_dedup _)]
      intro cellID
      rw [hkeys, List.mem_dedup, List.mem_map]
    have := hperm.length_eq
    simpa using this

/-- The set of `sampleCells`: two entries, and the entry of `c1` is the last cell
presence of the list with that id. -/
theorem NewCellSetFromList_example :
    NewCellSetFromList (sampleCells.map some)
      = some [("c1", sampleCell "c1" "r3" 3), ("c2", sampleCell "c2" "r2" 2)] := by
  rfl

/-- C13: for every task guid and every sequence of calls of the task API in which
the guid names one task (no `DesireTask` creates a record for it again), the
states observed for the task follow the path `Pending`, `Running`, `Completed`,
`Resolving`, (deleted): no observation comes before an earlier one on the path,
and the states observed, each taken once, are a sublist of the path, so that
states may be skipped forward and none is revisited. `StartTask` moves
`Pending` to `Running`, `CompleteTask` by the cell of the task moves `Running`
to `Completed`, `ResolvingTask` succeeds from `Completed` and is an
`InvalidStateTransition` from any other state, `DeleteTask` succeeds from
`Resolving` only, after which `TaskByGuid` returns `ResourceNotFound`; the
path starts at `Pending`, the state in which `DesireTask` creates the task. -/
theorem task_state_path (valid : TaskDefinition → Bool) (s : TaskStore) (ops : List TaskOp)
    (taskGuid : String) (hunique : GuidNotReused valid taskGuid ops s) :
    (observe s taskGuid :: observations valid taskGuid ops s).Pairwise
      (fun a b => stateRank a ≤ stateRank b) ∧
    List.Sublist (List.dedup (observe s taskGuid :: observations valid taskGuid ops s))
      taskPath ∧
    (∀ (cellId : String) (t : Task), s.find taskGuid = some t → t.State = .Pending →
      ∃ s1, StartTask s taskGuid cellId = ((true, none), s1) ∧
        observe s1 taskGuid = some .Running) ∧
    (∀ (failed : Bool) (reason result : String) (t : Task),
      s.find taskGuid = some t → t.State = .Running →
      ∃ s1, CompleteTask s taskGuid t.CellId failed reason result = (none, s1) ∧
        observe s1 taskGuid = some .Completed) ∧
    (∀ (t : Task), s.find taskGuid = some t →
      (t.State = .Completed →
        ∃ s1, ResolvingTask s taskGuid = (none, s1) ∧ observe s1 taskGuid = some .Resolving) ∧
      (t.State ≠ .Completed →
        ResolvingTask s taskGuid = (some .InvalidStateTransition, s))) ∧
    (∀ (t : Task), s.find taskGuid = some t →
      (t.State = .Resolving →
        ∃ s1, DeleteTask s taskGuid = (none, s1) ∧
          TaskByGuid s1 taskGuid = .error .ResourceNotFound) ∧
      (t.State ≠ .Resolving →
        DeleteTask s taskGuid = (some .InvalidStateTransition, s))) ∧
    (∀ (domain : String) (definition : TaskDefinition),
      s.find taskGuid = none → domain ≠ "" → valid definition = true →
      ∃ s1, DesireTask valid s taskGuid domain definition = (none, s1) ∧
        observe s1 taskGuid = some .Pending) := by
  have hforward := observations_pairwise valid taskGuid ops s hunique
  refine ⟨hforward, dedup_sublist_taskPath _ hforward, ?_, ?_, ?_, ?_, ?_⟩
  · intro cellId t hfind hstate
    have hguid := TaskStore_find_guid s taskGuid t hfind
    refine ⟨_, by simp only [StartTask, hfind, hstate]; rfl, ?_⟩
    rw [observe, TaskStore_find_write]
    simp [hguid, hfind]
  · intro failed reason result t hfind hstate
    have hguid := TaskStore_find_guid s taskGuid t hfind
    refine ⟨s.write
      { t with
        State := .Completed, Failed := failed, FailureReason := reason, Result := result,
        UpdatedAt := s.clock, FirstCompletedAt := s.clock },
      by simp only [CompleteTask, hfind, hstate, if_true], ?_⟩
    rw [observe, TaskStore_find_write]
    simp [hguid, hfind]
  · intro t hfind
    have hguid := TaskStore_find_guid s taskGuid t hfind
    constructor
    · intro hstate
      refine ⟨_, by simp only [ResolvingTask, hfind, hstate]; rfl, ?_⟩
      rw [observe, TaskStore_find_write]
      simp [hguid, hfind]
    · intro hstate
      cases hs : t.State with
      | Completed => exact absurd hs hstate
      | Pending => simp only [ResolvingTask, hfind, hs]
      | Running => simp only [ResolvingTask, hfind, hs]
      | Resolving => simp only [ResolvingTask, hfind, hs]
  · intro t hfind
    constructor
    · intro hstate
      refine ⟨_, by simp only [DeleteTask, hfind, hstate]; rfl, ?_⟩
      have hobs := observe_delete s taskGuid taskGuid
      simp only [if_true, observe, Option.map_eq_none'] at hobs
      simp only [TaskByGuid, hobs]
    · intro hstate
      cases hs : t.State with
      | Resolving => exact absurd hs hstate
      | Pending => simp only [DeleteTask, hfind, hs]
      | Running => simp only [DeleteTask, hfind, hs]
      | Completed => simp only [DeleteTask, hfind, hs]
  · intro domain definition hfind hdomain hvalid
    have hcheck : ¬ (domain = "" ∨ valid definition = false) := by
      rintro (h | h)
      · exact hdomain h
      · rw [hvalid] at h
        cases h
    refine ⟨_, by simp only [DesireTask, if_neg hcheck, hfind]; rfl, ?_⟩
    rw [observe_create s _ taskGuid hfind]
    simp

/-- C13 at a concrete run: the stored pending task `t1` is started, desired again
(refused), completed by its cell, resolved and deleted; the states observed are
`Pending`, `Running`, `Running`, `Completed`, `Resolving`, (deleted), which
taken once each are the whole path. -/
theorem task_state_path_witness :
    GuidNotReused anyDefinition "t1" lifecycleOps pendingTasks ∧
    (observe pendingTasks "t1" :: observations anyDefinition "t1" lifecycleOps pendingTasks)
      = [some .Pending, some .Running, some .Running, some .Completed, some .Resolving, none] ∧
    (observe pendingTasks "t1"
        :: observations anyDefinition "t1" lifecycleOps pendingTasks).Pairwise
      (fun a b => stateRank a ≤ stateRank b) ∧
    List.Sublist
      (List.dedup
        (observe pendingTasks "t1" :: observations anyDefinition "t1" lifecycleOps pendingTasks))
      taskPath :=
  have hunique : GuidNotReused anyDefinition "t1" lifecycleOps pendingTasks := by decide
  ⟨hunique, rfl,
    (task_state_path anyDefinition pendingTasks lifecycleOps "t1" hunique).1,
    (task_state_path anyDefinition pendingTasks lifecycleOps "t1" hunique).2.1⟩

/-- C14: `StartTask` of a `Pending` task succeeds with `shouldStart = true` and
leaves the task `Running` on the cell; a second `StartTask` with the same cell
succeeds with `shouldStart = false` and leaves the state, with the record of
the task, as it is. -/
theorem StartTask_idempotent (s : TaskStore) (taskGuid cellId : String) (t : Task)
    (hfind : s.find taskGuid = some t) (hpending : t.State = .Pending) :
    ∃ s1 t1,
      StartTask s taskGuid cellId = ((true, none), s1) ∧
      s1.find taskGuid = some t1 ∧
      t1 = { t with State := .Running, CellId := cellId, UpdatedAt := s.clock } ∧
      StartTask s1 taskGuid cellId = ((false, none), s1) := by
  have hguid := TaskStore_find_guid s taskGuid t hfind
  have hfind1 : (s.write { t with State := .Running, CellId := cellId, UpdatedAt := s.clock }).find
      taskGuid = some { t with State := .Running, CellId := cellId, UpdatedAt := s.clock } := by
    rw [TaskStore_find_write]
    simp [hguid, hfind]
  refine ⟨_, _, by simp only [StartTask, hfind, hpending], hfind1, rfl, ?_⟩
  simp only [StartTask, hfind1, if_true]

/-- C14 at a concrete store: the pending task `t1` is started twice on `cellA`. -/
theorem StartTask_idempotent_witness :
    ∃ s1 t1,
      StartTask pendingTasks "t1" "cellA" = ((true, none), s1) ∧
      s1.find "t1" = some t1 ∧
      t1 = { TaskGuid := "t1", Domain := "d", TaskDefinition := { Payload := "def" },
             State := .Running, CellId := "cellA", Result := "", Failed := false,
             FailureReason := "", CreatedAt := 1, UpdatedAt := 2, FirstCompletedAt := 0 } ∧
      StartTask s1 "t1" "cellA" = ((false, none), s1) :=
  StartTask_idempotent pendingTasks "t1" "cellA"
    { TaskGuid := "t1", Domain := "d", TaskDefinition := { Payload := "def" },
      State := .Pending, CellId := "", Result := "", Failed := false, FailureReason := "",
      CreatedAt := 1, UpdatedAt := 1, FirstCompletedAt := 0 }
    rfl rfl

/-- C15: `CancelTask` of a task that is `Pending` or `Running` succeeds and leaves it
`Completed` with `Failed = true` and the `FailureReason` `task was cancelled`;
for a task that is `Completed` or `Resolving` it fails with
`InvalidStateTransition` and leaves the state as it is. -/
theorem CancelTask_spec (s : TaskStore) (taskGuid : String) (t : Task)
    (hfind : s.find taskGuid = some t) :
    (t.State = .Pending ∨ t.State = .Running →
      ∃ s1 t1,
        CancelTask s taskGuid = (none, s1) ∧
        s1.find taskGuid = some t1 ∧
        t1.State = .Completed ∧ t1.Failed = true ∧
        t1.FailureReason = "task was cancelled") ∧
    (t.State = .Completed ∨ t.State = .Resolving →
      CancelTask s taskGuid = (some .InvalidStateTransition, s)) := by
  have hguid := TaskStore_find_guid s taskGuid t hfind
  have hfind1 : (s.write (t.failed "task was cancelled" s.clock)).find taskGuid
      = some (t.failed "task was cancelled" s.clock) := by
    rw [TaskStore_find_write]
    simp [Task.failed, hguid, hfind]
  constructor
  · rintro (hstate | hstate)
    · exact ⟨_, _, by simp only [CancelTask, hfind, hstate], hfind1, rfl, rfl, rfl⟩
    · exact ⟨{ s.write (t.failed "task was cancelled" s.clock) with
          cellCancels := (s.write (t.failed "task was cancelled" s.clock)).cellCancels
            ++ [(t.CellId, taskGuid)] }, _,
        by simp only [CancelTask, hfind, hstate], hfind1, rfl, rfl, rfl⟩
  · rintro (hstate | hstate)
    · simp only [CancelTask, hfind, hstate]
    · simp only [CancelTask, hfind, hstate]

/-- C15 at a concrete store: the pending task `t1` is cancelled. -/
theorem CancelTask_spec_witness :
    ∃ s1 t1,
      CancelTask pendingTasks "t1" = (none, s1) ∧
      s1.find "t1" = some t1 ∧
      t1.State = .Completed ∧ t1.Failed = true ∧
      t1.FailureReason = "task was cancelled" :=
  (CancelTask_spec pendingTasks "t1"
    { TaskGuid := "t1", Domain := "d", TaskDefinition := { Payload := "def" },
      State := .Pending, CellId := "", Result := "", Failed := false, FailureReason := "",
      CreatedAt := 1, UpdatedAt := 1, FirstCompletedAt := 0 }
    rfl).1 (Or.inl rfl)

end BBS
